import Mathlib

/-!
Verification development for the bebop-targeting scheduling engine.

The TypeScript sources are shallowly embedded as executable Lean
definitions: JavaScript numbers that only ever hold integers become
`Int`, floating-point quantities (RNG outputs, policy weights, contour
scores) become `Rat` (exact rationals; the JS binary floats can differ
from these only in knife-edge rounding situations that no theorem below
depends on), fallible code returns `Except String`, and the mutable
per-run generator objects become explicit state records threaded through
the computation.  The master data file `data/theory.json` is not part of
the sources, so every function that reads it is parametrised by a
`TheoryData` value.
-/

namespace Bebop

/-! ## rng.ts -/

/-- 2^32, the modulus of all JS 32-bit integer coercions. -/
def UINT32_MOD : Nat := 4294967296

/-- 0xffffffff, the divisor used by mulberry32 to produce a float. -/
def UINT32_MAX : Nat := 4294967295

/-- `Math.imul`： 32-bit wrapping multiplication. -/
def imul32 (x y : Nat) : Nat := (x * y) % UINT32_MOD

/-- One step of the mulberry32 generator (`rng.ts` lines 9-18).
Returns the new internal state `a` together with the 32-bit output
word.  All JS signed/unsigned 32-bit coercions are congruences
mod 2^32, so the state is kept as a `Nat` below 2^32. -/
def mulberry32Next (a0 : Nat) : Nat × Nat :=
  let a := (a0 + 0x6d2b79f5) % UINT32_MOD
  let t := imul32 (Nat.xor a (a >>> 15)) (Nat.lor 1 a)
  let t := Nat.xor ((t + imul32 (Nat.xor t (t >>> 7)) (Nat.lor 61 t)) % UINT32_MOD) t
  (a, Nat.xor t (t >>> 14) % UINT32_MOD)

/-- Internal state of the RNG object returned by `makeRng`. -/
abbrev RngState : Type := Nat

/-- `makeRng(seed)` (`rng.ts` lines 20-24): the initial state is
`seed >>> 0`, i.e. the seed reduced mod 2^32. -/
def makeRng (seed : Int) : RngState := (seed % (UINT32_MOD : Int)).toNat

/-- `nextFloat()`: one generator step, scaled to `[0, 1]` by the
(off-by-one) divisor `0xffffffff`. -/
def nextFloat (s : RngState) : Rat × RngState :=
  let p := mulberry32Next s
  ((p.2 : Rat) / (UINT32_MAX : Rat), p.1)

/-- The scanning loop of `choiceWeighted` (`rng.ts` lines 52-59):
walk the items accumulating weights, return the first item whose
cumulative weight exceeds the threshold, or the final item. -/
def pickByThreshold {α : Type} (items : List α) (weights : List Rat)
    (threshold cumulative : Rat) (lastItem : α) : α :=
  match items, weights with
  | item :: moreItems, w :: moreWeights =>
      if threshold < cumulative + w then item
      else pickByThreshold moreItems moreWeights threshold (cumulative + w) lastItem
  | _, _ => lastItem

/-- `choiceWeighted(items, weights)` (`rng.ts` lines 35-60).  The
negative/non-finite check inside the JS `reduce` is the `any` test here
(every `Rat` is finite). -/
def choiceWeighted {α : Type} (items : List α) (weights : List Rat) (s : RngState) :
    Except String (α × RngState) :=
  match items with
  | [] => .error "La lista de ítems no puede estar vacía"
  | first :: rest =>
      if items.length ≠ weights.length then
        .error "items y weights deben tener la misma longitud"
      else if weights.any (fun w => w < 0) then
        .error "Los pesos deben ser números no negativos y finitos"
      else
        let total := weights.foldl (· + ·) 0
        if total = 0 then .error "La suma de los pesos no puede ser 0"
        else
          let fs := nextFloat s
          .ok (pickByThreshold items weights (fs.1 * total) 0 ((first :: rest).getLastD first), fs.2)

/-! ## pitch.ts -/

/-- `NOTE_TO_SEMITONE` in entry order. -/
def NOTE_TO_SEMITONE : List (String × Int) :=
  [("C", 0), ("D", 2), ("E", 4), ("F", 5), ("G", 7), ("A", 9), ("B", 11)]

/-- `DEGREE_TO_OFFSET` in entry order. -/
def DEGREE_TO_OFFSET : List (String × Int) :=
  [("1", 0), ("b2", 1), ("#1", 1), ("2", 2), ("9", 2), ("b3", 3), ("#2", 3),
   ("3", 4), ("4", 5), ("11", 5), ("#4", 6), ("b5", 6), ("5", 7), ("#5", 8),
   ("b6", 8), ("6", 9), ("13", 9), ("bb7", 9), ("b7", 10), ("7", 11), ("7M", 11)]

/-- First-match association-list lookup (JS object property access). -/
def lookupStr {α : Type} (entries : List (String × α)) (key : String) : Option α :=
  match entries with
  | [] => none
  | (k, v) :: rest => if k = key then some v else lookupStr rest key

/-- `midiToPitch` (`pitch.ts` lines 42-48).  JS `%` is truncating
remainder, hence `Int.tmod`. -/
def midiToPitch (midi : Int) : String :=
  let octave := Int.fdiv midi 12 - 1
  let semitone := (Int.tmod midi 12 + 12).tmod 12
  let names := NOTE_TO_SEMITONE.filter (fun p => p.2 = semitone)
  let preferred := match names with
    | [] => "C"
    | p :: _ => p.1
  preferred ++ toString octave

/-- Is `c` one of the chord-root letters `A`-`G` or `a`-`g`? -/
def isChordLetter (c : Char) : Bool :=
  ('A' ≤ c ∧ c ≤ 'G') ∨ ('a' ≤ c ∧ c ≤ 'g')

/-- Uppercase a chord-root letter (`toUpperCase` restricted to a-g). -/
def upperLetter (c : Char) : Char :=
  if 'a' ≤ c ∧ c ≤ 'g' then Char.ofNat (c.toNat - 32) else c

/-- `rootToMidi` (`pitch.ts` lines 65-77): parse
`^([A-Ga-g])(#{1,2}|b{1,2})?$` and convert to MIDI. -/
def rootToMidi (root : String) (octave : Int := 4) : Except String Int :=
  let fail : Except String Int := .error ("No se pudo interpretar la tónica \"" ++ root ++ "\"")
  let done (letter : Char) (offset : Int) : Except String Int :=
    match lookupStr NOTE_TO_SEMITONE (String.mk [upperLetter letter]) with
    | some base => .ok ((octave + 1) * 12 + base + offset)
    | none => fail
  match root.toList with
  | [l] => if isChordLetter l then done l 0 else fail
  | [l, a] =>
      if isChordLetter l ∧ a = '#' then done l 1
      else if isChordLetter l ∧ a = 'b' then done l (-1)
      else fail
  | [l, a, b] =>
      if isChordLetter l ∧ a = '#' ∧ b = '#' then done l 2
      else if isChordLetter l ∧ a = 'b' ∧ b = 'b' then done l (-2)
      else fail
  | _ => fail

/-- `DEGREE_ALIASES` normalisation (`pitch.ts` lines 79-85): flat/sharp
symbols become ASCII before the offset lookup. -/
def normalizeDegreeToken (raw : String) : String :=
  let step (repl : Char → Option (List Char)) (cs : List Char) : List Char :=
    cs.flatMap (fun c => (repl c).getD [c])
  let cs := raw.toList
  let cs := step (fun c => if c = '♭' then some ['b'] else none) cs
  let cs := step (fun c => if c = '♯' then some ['#'] else none) cs
  let cs := step (fun c => if c = '𝄫' then some ['b', 'b'] else none) cs
  let cs := step (fun c => if c = '𝄪' then some ['#', '#'] else none) cs
  String.mk cs

/-- `degreeToSemitoneOffset` (`pitch.ts` lines 87-94). -/
def degreeToSemitoneOffset (degree : String) : Except String Int :=
  match lookupStr DEGREE_TO_OFFSET (normalizeDegreeToken degree) with
  | some offset => .ok offset
  | none => .error ("No se reconoce el grado \"" ++ degree ++ "\"")

/-- Fuelled form of the `while (value < min) value += 12` loop of
`wrapMidiToRange`; every iteration raises `value` by 12, so a fuel of
`(min - value).toNat + 1` can never run out before the guard fails. -/
def liftIter : Nat → Int → Int → Int
  | 0, v, _ => v
  | fuel + 1, v, minv => if v < minv then liftIter fuel (v + 12) minv else v

/-- The `while (value < min) value += 12` loop of `wrapMidiToRange`. -/
def liftToMin (value minv : Int) : Int :=
  liftIter ((minv - value).toNat + 1) value minv

/-- Fuelled form of the `while (value > max) value -= 12` loop. -/
def dropIter : Nat → Int → Int → Int
  | 0, v, _ => v
  | fuel + 1, v, maxv => if v > maxv then dropIter fuel (v - 12) maxv else v

/-- The `while (value > max) value -= 12` loop of `wrapMidiToRange`. -/
def dropToMax (value maxv : Int) : Int :=
  dropIter ((value - maxv).toNat + 1) value maxv

/-- Body of `wrapMidiToRange` after the `min > max` guard
(`pitch.ts` lines 100-117): octave shifts, then hard clamps. -/
def wrapValue (midi minv maxv : Int) : Int :=
  let span := maxv - minv + 1
  if span ≤ 0 then minv
  else
    let v := liftToMin midi minv
    let v := dropToMax v maxv
    let v := if v < minv then minv else v
    if v > maxv then maxv else v

/-- `wrapMidiToRange` (`pitch.ts` lines 96-118). -/
def wrapMidiToRange (midi minv maxv : Int) : Except String Int :=
  if minv > maxv then .error "Rango inválido: min > max"
  else .ok (wrapValue midi minv maxv)

/-! ## parser.ts: data model -/

/-- A chord's time window (`parser.ts` lines 1-5). -/
structure ChordWindow where
  chordSymbol : String
  startEighth : Int
  lengthEighths : Int
deriving DecidableEq, Repr

/-! ## rhythm.ts (the three-argument version used by the scheduler,
with policy landing preferences) -/

/-- `RhythmPlacement` record. -/
structure RhythmPlacement where
  landing : Int
  approachStart : Int
  totalStart : Int
  isolated : Option Int
deriving DecidableEq, Repr

/-- `getLandingOptions` : `LANDING_OPTIONS_BY_LENGTH` lookup with the
`?? [1,3,5,7]` default. -/
def getLandingOptions (window : ChordWindow) : List Int :=
  if window.lengthEighths = 4 then [1, 3]
  else if window.lengthEighths = 8 then [1, 3, 5, 7]
  else [1, 3, 5, 7]

/-- One step of the `merged`/`seen` accumulation in
`mergeLandingPreferences`: push the offset unless already seen. -/
def seenStep (acc : List Int × List Int) (option : Int) : List Int × List Int :=
  if ¬ acc.2.contains option then (acc.1 ++ [option], acc.2 ++ [option]) else acc

/-- The step of the preferred-offset loop: push when legal and unseen. -/
def prefStep (base : List Int) (acc : List Int × List Int) (option : Int) :
    List Int × List Int :=
  if base.contains option then seenStep acc option else acc

/-- `mergeLandingPreferences`: preferred offsets that are legal, in the
given order and deduplicated, then the remaining legal offsets; an empty
merge falls back to the base list.  The JS `Set` named `seen` is the
second component of the accumulator. -/
def mergeLandingPreferences (base : List Int) (preferred : Option (List Int)) : List Int :=
  match preferred with
  | none => base
  | some preferredList =>
      if preferredList.isEmpty then base
      else
        let afterPreferred := preferredList.foldl (prefStep base) ([], [])
        let merged := base.foldl seenStep afterPreferred
        if merged.1.isEmpty then base else merged.1

/-- `pickLanding`: start of the window plus the first merged offset
(`?? 1` if the merged list were empty). -/
def pickLanding (window : ChordWindow) (preferred : Option (List Int)) : Int :=
  let baseOptions := getLandingOptions window
  let options := mergeLandingPreferences baseOptions preferred
  let offset := options.headD 1
  window.startEighth + offset

/-- `computeRhythmPlacement(window, formulaLength, preferredLanding)`.
JS computes `Math.abs(approachStart % 2)`, i.e. `natAbs` of the
truncating remainder. -/
def computeRhythmPlacement (window : ChordWindow) (formulaLength : Int)
    (preferredLanding : Option (List Int)) : Except String RhythmPlacement :=
  if formulaLength ≤ 0 then
    .error "La fórmula debe tener al menos una nota (el target)"
  else
    let landing := pickLanding window preferredLanding
    let approachStart := landing - (formulaLength - 1)
    let parity := (Int.tmod approachStart 2).natAbs
    let needsIsolated := parity = 1
    let isolated := if needsIsolated then some (approachStart - 1) else none
    let totalStart := isolated.getD approachStart
    .ok { landing := landing, approachStart := approachStart,
          totalStart := totalStart, isolated := isolated }


/-! ## parser.ts: string utilities and `parseProgression` -/

/-- The JS `\s` character class (also the `trim()` set): ECMAScript
WhiteSpace plus LineTerminator, by code point. -/
def jsWhitespace (c : Char) : Bool :=
  let n := c.toNat
  n = 0x20 ∨ n = 0x9 ∨ n = 0xa ∨ n = 0xb ∨ n = 0xc ∨ n = 0xd ∨
  n = 0xa0 ∨ n = 0x1680 ∨ (0x2000 ≤ n ∧ n ≤ 0x200a) ∨
  n = 0x2028 ∨ n = 0x2029 ∨ n = 0x202f ∨ n = 0x205f ∨
  n = 0x3000 ∨ n = 0xfeff

/-- JS `String.prototype.trim`. -/
def jsTrim (s : String) : String :=
  String.mk (((s.toList.dropWhile jsWhitespace).reverse.dropWhile jsWhitespace).reverse)

/-- A JS ECMAScript LineTerminator (a character the regex `.` does not
match). -/
def lineTerminator (c : Char) : Bool :=
  let n := c.toNat
  n = 0xa ∨ n = 0xd ∨ n = 0x2028 ∨ n = 0x2029

/-- Split a character list at every separator character (JS
`String.split`; runs of separators produce empty segments, which every
caller filters away). -/
def splitChars (p : Char → Bool) (cs : List Char) : List (List Char) :=
  match cs with
  | [] => [[]]
  | c :: rest =>
      let tail := splitChars p rest
      if p c then [] :: tail
      else
        match tail with
        | [] => [[c]]
        | seg :: segs => (c :: seg) :: segs

/-- Fuelled scan for the parser regex `/\(([^)]+)\)/g` replacement: a
`(`, at least one non-`)` character, then the first `)`, replaced by the
inner content.  Every step consumes at least one character, so a fuel of
`cs.length` is always sufficient. -/
def stripNonEmptyIter : Nat → List Char → List Char
  | 0, cs => cs
  | _ + 1, [] => []
  | fuel + 1, c :: rest =>
      if c = '(' then
        let inner := rest.takeWhile (fun x => x ≠ ')')
        let remainder := rest.drop inner.length
        if inner ≠ [] ∧ remainder.head? = some ')' then
          inner ++ stripNonEmptyIter fuel (remainder.drop 1)
        else c :: stripNonEmptyIter fuel rest
      else c :: stripNonEmptyIter fuel rest

/-- Replace, left to right, the paren groups matched by the parser
regex `/\(([^)]+)\)/g` with their contents. -/
def stripParensNonEmpty (cs : List Char) : List Char :=
  stripNonEmptyIter cs.length cs

/-- Fuelled scan for the theory regex `/\(.*?\)/g` replacement: a `(`,
then any (possibly zero) non-line-terminator characters up to the first
`)`, replaced by the inner content. -/
def stripLazyIter : Nat → List Char → List Char
  | 0, cs => cs
  | _ + 1, [] => []
  | fuel + 1, c :: rest =>
      if c = '(' then
        let inner := rest.takeWhile (fun x => x ≠ ')' ∧ ¬ lineTerminator x)
        let remainder := rest.drop inner.length
        if remainder.head? = some ')' then
          inner ++ stripLazyIter fuel (remainder.drop 1)
        else c :: stripLazyIter fuel rest
      else c :: stripLazyIter fuel rest

/-- Replace, left to right, the lazy paren groups matched by the theory
regex `/\(.*?\)/g` with their contents. -/
def stripParensLazy (cs : List Char) : List Char :=
  stripLazyIter cs.length cs

/-- Replace every occurrence of a single character by a string. -/
def replaceChar (source : Char) (target : List Char) (cs : List Char) : List Char :=
  cs.flatMap (fun c => if c = source then target else [c])

/-- Replace every occurrence of a two-character sequence by a string
(the `/º7/g` rule). -/
def replacePair (a b : Char) (target : List Char) : List Char → List Char
  | [] => []
  | [c] => [c]
  | c :: d :: rest =>
      if c = a ∧ d = b then target ++ replacePair a b target rest
      else c :: replacePair a b target (d :: rest)

/-- `normalizeToken` (`parser.ts` lines 18-24): the
`QUALITY_REPLACEMENTS` pipeline applied to the trimmed token. -/
def normalizeToken (raw : String) : String :=
  let cs := (jsTrim raw).toList
  let cs := cs.flatMap (fun c => if c = '∆' ∨ c = 'Δ' then "maj7".toList else [c])
  let cs := replaceChar 'Ø' ['ø'] cs
  let cs := replacePair 'º' '7' "dim7".toList cs
  let cs := replaceChar 'º' "dim".toList cs
  let cs := replaceChar '+' "#5".toList cs
  let cs := stripParensNonEmpty cs
  let cs := cs.filter (fun c => ¬ jsWhitespace c)
  String.mk cs

/-- The bar loop of `parseProgression` (`parser.ts` lines 39-72);
`cursor` is the running eighth-note position. -/
def parseBars (bars : List String) (cursor : Int) : Except String (List ChordWindow) :=
  match bars with
  | [] => .ok []
  | bar :: rest =>
      let tokens := ((splitChars jsWhitespace bar.toList).map
        (fun cs => jsTrim (String.mk cs))).filter (fun t => t ≠ "")
      match tokens with
      | [] => parseBars rest cursor
      | [t0] => do
          let tail ← parseBars rest (cursor + 8)
          .ok ({ chordSymbol := normalizeToken t0, startEighth := cursor,
                 lengthEighths := 8 } :: tail)
      | [t0, t1] => do
          let tail ← parseBars rest (cursor + 8)
          .ok ({ chordSymbol := normalizeToken t0, startEighth := cursor,
                 lengthEighths := 4 } ::
               { chordSymbol := normalizeToken t1, startEighth := cursor + 4,
                 lengthEighths := 4 } :: tail)
      | _ => .error ("Máximo de 2 acordes por compás. Se encontró: \"" ++ bar ++ "\"")

/-- `parseProgression` (`parser.ts` lines 26-75). -/
def parseProgression (prog : String) : Except String (List ChordWindow) :=
  if jsTrim prog = "" then .ok []
  else
    let bars := ((splitChars (fun c => c = '|') prog.toList).map
      (fun cs => jsTrim (String.mk cs))).filter (fun b => b ≠ "")
    parseBars bars 0

/-! ## theory.ts (loader in `structure.ts`; the `data/theory.json`
payload is not part of the sources, so it is a parameter everywhere) -/

/-- A `type` field value: the JSON payload declares `FormulaType | string`. -/
inductive TipoValue where
  | num (n : Int)
  | str (s : String)
deriving DecidableEq, Repr

/-- `TargetInfo`. -/
structure TargetInfo where
  reference : String
  interval : Option String
  type : TipoValue
deriving DecidableEq, Repr

/-- `ChordProfile`; the JSON field `structure` is a Lean keyword and is
called `structureTones` here. -/
structure ChordProfile where
  symbol : String
  structureTones : List String
  extensions_default : List (String × String)
  targets : List (String × TargetInfo)
deriving DecidableEq, Repr

/-- The theory store: the two formula catalogs and the chord table, as
association lists in JSON entry order. -/
structure TheoryData where
  formulas_TIPO_1 : List (String × List (List Int))
  formulas_TIPO_2 : List (String × List (List Int))
  chords : List (String × ChordProfile)

/-- `QUALITY_ALIAS_ENTRIES` (`structure.ts` lines 86-128), in order. -/
def QUALITY_ALIASES : List (String × String) :=
  [("", "maj7"), ("maj", "maj7"), ("maj7", "maj7"), ("maj9", "maj7"),
   ("maj11", "maj7"), ("maj13", "maj7"), ("Δ", "maj7"), ("∆", "maj7"),
   ("M7", "maj7"), ("m7", "m7"), ("m9", "m7"), ("m11", "m7"), ("m13", "m7"),
   ("m6", "m6"), ("mMaj7", "mMaj7"), ("min7", "m7"), ("min9", "m7"),
   ("ø", "ø"), ("Ø", "ø"), ("m7b5", "ø"), ("halfdim", "ø"),
   ("dim7", "dim7"), ("o7", "dim7"), ("º7", "dim7"), ("º", "dim7"),
   ("7", "7"), ("9", "7"), ("11", "7"), ("13", "7"), ("7b9", "7"),
   ("7#9", "7"), ("7b5", "7b5"), ("7#5", "7#5"), ("aug", "7#5"),
   ("+", "7#5"), ("#5", "7#5"), ("sus", "frig"), ("sus4", "frig"),
   ("frig", "frig"), ("maj7b5", "maj7b5"), ("maj7#5", "maj7#5")]

/-- `normalizeQuality` (`structure.ts` lines 132-150). -/
def normalizeQuality (theory : TheoryData) (raw : String) : Except String String :=
  let cs := stripParensLazy raw.toList
  let cs := cs.filter (fun c => ¬ jsWhitespace c)
  let cs := cs.flatMap (fun c => if c = 'Δ' ∨ c = '∆' then "maj7".toList else [c])
  let cs := replaceChar 'º' "dim".toList cs
  let cs := replaceChar '+' "#5".toList cs
  let cleaned := String.mk cs
  match lookupStr QUALITY_ALIASES cleaned with
  | some canonical => .ok canonical
  | none =>
      if (lookupStr theory.chords cleaned).isSome then .ok cleaned
      else .error ("No se reconoce la cualidad de acorde: \"" ++ raw ++ "\"")

/-- `extractQuality` (`structure.ts` lines 152-160): the regex
`^([A-Ga-g](?:#|b)?)(.*)$` matched against the trimmed symbol; `.`
matches no line terminator, so the match fails on embedded newlines and
the whole trimmed string goes to `normalizeQuality`. -/
def extractQuality (theory : TheoryData) (symbol : String) : Except String String :=
  let trimmed := jsTrim symbol
  match trimmed.toList with
  | [] => normalizeQuality theory trimmed
  | c :: rest =>
      if isChordLetter c then
        let qualityChars := match rest with
          | a :: rs => if a = '#' ∨ a = 'b' then rs else rest
          | [] => []
        if qualityChars.any lineTerminator then normalizeQuality theory trimmed
        else normalizeQuality theory (String.mk qualityChars)
      else normalizeQuality theory trimmed

/-- `getChordProfile` (`structure.ts` lines 162-169). -/
def getChordProfile (theory : TheoryData) (symbol : String) : Except String ChordProfile :=
  match extractQuality theory symbol with
  | .error e => .error e
  | .ok quality =>
      match lookupStr theory.chords quality with
      | some profile => .ok profile
      | none => .error ("No existe perfil para el símbolo \"" ++ symbol ++
                        "\" (cualidad \"" ++ quality ++ "\")")

/-- `getFormulas` (`structure.ts` lines 171-179). -/
def getFormulas (theory : TheoryData) (tipo : TipoValue) :
    Except String (List (String × List (List Int))) :=
  if tipo = .num 1 then .ok theory.formulas_TIPO_1
  else if tipo = .num 2 then .ok theory.formulas_TIPO_2
  else .error "Tipo de fórmula no soportado"

/-! ## policies.ts -/

/-- `FormulaDescriptor`. -/
structure FormulaDescriptor where
  pattern : List Int
  group : String
deriving DecidableEq, Repr

/-- `FormulaPolicyConfig`: the partial records become functions to
`Option`. -/
structure FormulaPolicyConfig where
  lengthWeights : TipoValue → Nat → Option Rat
  groupWeights : TipoValue → String → Option Rat
  repeatTipoPenalty : Option Rat

/-- `RhythmPolicyConfig`. -/
structure RhythmPolicyConfig where
  landingOrder : Int → Option (List Int)

/-- `PolicyConfig`. -/
structure PolicyConfig where
  formula : Option FormulaPolicyConfig
  rhythm : Option RhythmPolicyConfig

/-- The mutable `lastTipo` field of `PolicyManager`. -/
abbrev PolicyState : Type := Option TipoValue

/-- `createPolicyManager()` with no argument: an empty config. -/
def createPolicyManager : PolicyConfig := { formula := none, rhythm := none }

/-- `clamp` (both `policies.ts` and the contour module). -/
def clampQ (value minv maxv : Rat) : Rat := min (max value minv) maxv

/-- `PolicyManager.evaluateFormulaWeight` (`policies.ts`). -/
def evaluateFormulaWeight (cfg : PolicyConfig) (lastTipo : PolicyState)
    (tipo : TipoValue) (descriptor : FormulaDescriptor) (baseWeight : Rat) : Rat :=
  let weight := baseWeight
  let weight := match cfg.formula with
    | some f =>
        match f.lengthWeights tipo descriptor.pattern.length with
        | some m => weight * m
        | none => weight
    | none => weight
  let weight := match cfg.formula with
    | some f =>
        match f.groupWeights tipo descriptor.group with
        | some m => weight * m
        | none => weight
    | none => weight
  let penalty := clampQ (match cfg.formula with
    | some f => f.repeatTipoPenalty.getD 0
    | none => 0) 0 0.95
  if penalty > 0 ∧ lastTipo = some tipo then weight * (1 - penalty) else weight

/-- `PolicyManager.getLandingPreferences`. -/
def getLandingPreferences (cfg : PolicyConfig) (windowLength : Int) : Option (List Int) :=
  match cfg.rhythm with
  | none => none
  | some r =>
      match r.landingOrder windowLength with
      | none => none
      | some preferences => if preferences.isEmpty then none else some preferences

/-! ## contour.ts (src/unnamed/part_000) -/

/-- JS `Math.round`: half-up, ties toward positive infinity. -/
def jsRound (q : Rat) : Int := ⌊q + 1/2⌋

/-- `DEGREE_PRIORITY` (`contour.ts` line 7). -/
def DEGREE_PRIORITY : List String :=
  ["3", "5", "1", "7M", "♭7", "4", "6", "♭3", "♯5", "♭5", "♭♭7"]

/-- `priorityIndex`: `indexOf`, with missing degrees mapped to the
list length (JS returns -1, which the source converts). -/
def priorityIndex (degree : String) : Nat := DEGREE_PRIORITY.indexOf degree

/-- `extractRoot` (`contour.ts` lines 9-15): prefix regex
`^([A-Ga-g](?:#|b)?)`. -/
def extractRoot (symbol : String) : Except String String :=
  let fail : Except String String :=
    .error ("No se pudo extraer la tónica del símbolo \"" ++ symbol ++ "\"")
  match (jsTrim symbol).toList with
  | [] => fail
  | c :: rest =>
      if isChordLetter c then
        match rest with
        | a :: _ =>
            if a = '#' ∨ a = 'b' then .ok (String.mk [c, a]) else .ok (String.mk [c])
        | [] => .ok (String.mk [c])
      else fail

/-- `computeEffectiveRange` (`contour.ts` lines 21-27); the slider
defaults to 0.4 when absent. -/
def computeEffectiveRange (slider : Option Rat) (minMidi maxMidi : Int) : Int × Int :=
  let ratio := clampQ (slider.getD 0.4) 0 1
  let padding := jsRound (ratio * 8)
  let effectiveMin := min maxMidi (minMidi + padding)
  let effectiveMax := max effectiveMin (maxMidi - padding)
  (effectiveMin, effectiveMax)

/-- `computeRootMidi` (`contour.ts` lines 29-45). -/
def computeRootMidi (root : String) (minMidi maxMidi : Int) : Except String Int := do
  let mid := jsRound (((minMidi + maxMidi : Int) : Rat) / 2)
  let m ← rootToMidi root 4
  let m := liftToMin m minMidi
  let m := dropToMax m maxMidi
  let m := if |mid - (m + 12)| < |mid - m| ∧ m + 12 ≤ maxMidi then m + 12 else m
  let m := if |mid - (m - 12)| < |mid - m| ∧ m - 12 ≥ minMidi then m - 12 else m
  .ok m

/-- Fuelled form of the upward octave loop of
`resolveDegreeCandidates`; every iteration raises `midi` by 12, so a
fuel of `(maxMidi - midi).toNat + 1` never runs out before the guard
fails. -/
def collectUpIter : Nat → Int → Int → Int → List Int
  | 0, _, _, _ => []
  | fuel + 1, midi, minMidi, maxMidi =>
      if midi ≤ maxMidi then
        (if midi ≥ minMidi ∧ midi ≤ maxMidi then [midi] else []) ++
          collectUpIter fuel (midi + 12) minMidi maxMidi
      else []

/-- The upward octave loop of `resolveDegreeCandidates`. -/
def collectUp (midi minMidi maxMidi : Int) : List Int :=
  collectUpIter ((maxMidi - midi).toNat + 1) midi minMidi maxMidi

/-- Fuelled form of the downward octave loop. -/
def collectDownIter : Nat → Int → Int → Int → List Int
  | 0, _, _, _ => []
  | fuel + 1, midi, minMidi, maxMidi =>
      if midi ≥ minMidi then
        (if midi ≥ minMidi ∧ midi ≤ maxMidi then [midi] else []) ++
          collectDownIter fuel (midi - 12) minMidi maxMidi
      else []

/-- The downward octave loop of `resolveDegreeCandidates`. -/
def collectDown (midi minMidi maxMidi : Int) : List Int :=
  collectDownIter ((midi - minMidi).toNat + 1) midi minMidi maxMidi

/-- `resolveDegreeCandidates` (`contour.ts` lines 47-67): both octave
scans, dedup in insertion order (the JS `Set`), then an ascending
numeric sort. -/
def resolveDegreeCandidates (rootMidi : Int) (degree : String)
    (minMidi maxMidi : Int) : Except String (List Int) := do
  let offset ← degreeToSemitoneOffset degree
  let base := rootMidi + offset
  let raws := collectUp base minMidi maxMidi ++ collectDown (base - 12) minMidi maxMidi
  .ok ((raws.eraseDups).insertionSort (fun a b => a ≤ b))

/-- `ContourTarget`. -/
structure ContourTarget where
  degree : String
  midi : Int
  pitch : String
deriving DecidableEq, Repr

/-- The state captured by the closure `createContourGenerator` returns:
the register bounds are computed once, `lastMidi` and `direction` are
the mutable fields. -/
structure ContourState where
  rangeMin : Int
  rangeMax : Int
  lastMidi : Option Int
  direction : Int
deriving DecidableEq, Repr

/-- `ContourOptions`. -/
structure ContourOptions where
  slider : Option Rat
  minMidi : Option Int
  maxMidi : Option Int
  startDegree : Option String
  startMidi : Option Int

/-- `createContourGenerator(options)` (`contour.ts` lines 92-95). -/
def createContourGenerator (options : ContourOptions) : ContourState :=
  let r := computeEffectiveRange options.slider (options.minMidi.getD 60) (options.maxMidi.getD 84)
  { rangeMin := r.1, rangeMax := r.2, lastMidi := options.startMidi, direction := 1 }

/-- `createContourGenerator()` with the default empty options object. -/
def defaultContourOptions : ContourOptions :=
  { slider := none, minMidi := none, maxMidi := none, startDegree := none, startMidi := none }

/-- `localeCompare` modelled as code-point comparison (the tie-break
between two degrees of equal priority). -/
def localeCmp (a b : String) : Int := if a < b then -1 else if b < a then 1 else 0

/-- The comparator passed to `degrees.sort` in `nextTarget`. -/
def degreeCmp (a b : String) : Int :=
  let priorityDelta := (priorityIndex a : Int) - (priorityIndex b : Int)
  if priorityDelta ≠ 0 then priorityDelta else localeCmp a b

/-- The comparator as a relation for the stable insertion sort that
models the (stable) `Array.prototype.sort`. -/
def degreeLe (a b : String) : Bool := degreeCmp a b ≤ 0

/-- The inner candidate scan of `nextTarget` (`contour.ts` lines
120-128): nearest candidate to `desired`, with a 1e-3 epsilon on
strict improvement. -/
def bestCandidate (candidates : List Int) (c0 : Int) (desired : Rat) : Int × Rat :=
  candidates.foldl
    (fun (acc : Int × Rat) (value : Int) =>
      let diff := |(value : Rat) - desired|
      if diff < acc.2 - 1/1000 then (value, diff) else acc)
    (c0, |(c0 : Rat) - desired|)

/-- Tail of `nextTarget` (`contour.ts` lines 144-157): wrap the selected
midi into the register, update `lastMidi` and `direction`, and build the
returned `ContourTarget`. -/
def contourFinish (s : ContourState) (selectedDegree : String) (selectedMidi : Int) :
    Except String (ContourTarget × ContourState) := do
  let lastMidi ← wrapMidiToRange selectedMidi s.rangeMin s.rangeMax
  let direction : Int :=
    if lastMidi ≥ s.rangeMax - 2 then -1
    else if lastMidi ≤ s.rangeMin + 2 then 1
    else if s.direction = 1 then -1 else 1
  .ok ({ degree := selectedDegree, midi := lastMidi, pitch := midiToPitch lastMidi },
       { s with lastMidi := some lastMidi, direction := direction })

/-- `nextTarget(chordSymbol, profile)` (`contour.ts` lines 97-157). -/
def nextTarget (chordSymbol : String) (profile : ChordProfile) (s : ContourState) :
    Except String (ContourTarget × ContourState) :=
  let degrees := profile.targets.map (fun p => p.1)
  if degrees.isEmpty then
    .error ("El perfil de acorde \"" ++ chordSymbol ++ "\" no define targets")
  else do
    let sortedDegrees := degrees.insertionSort (fun a b => degreeLe a b = true)
    let root ← extractRoot chordSymbol
    let rootMidi ← computeRootMidi root s.rangeMin s.rangeMax
    let desired : Rat := match s.lastMidi with
      | none => ((s.rangeMin + s.rangeMax : Int) : Rat) / 2
      | some _ => if s.direction = 1 then (s.rangeMax : Rat) else (s.rangeMin : Rat)
    let sel ← sortedDegrees.foldlM
      (fun (acc : String × Int × Option Rat) degree => do
        let candidates ← resolveDegreeCandidates rootMidi degree s.rangeMin s.rangeMax
        match candidates with
        | [] => pure acc
        | c0 :: _ =>
            let best := bestCandidate candidates c0 desired
            let score := best.2 + (priorityIndex degree : Rat) * (1/10)
            let improves : Bool := match acc.2.2 with
              | none => true
              | some b => score < b
            if improves then pure (degree, best.1, some score) else pure acc)
      (sortedDegrees.headD "", 0, (none : Option Rat))
    match sel.2.2 with
    | some _ => contourFinish s sel.1 sel.2.1
    | none => do
        let fallbackCandidates ← resolveDegreeCandidates rootMidi
          (sortedDegrees.headD "") s.rangeMin s.rangeMax
        match fallbackCandidates with
        | [] => .error ("No hay registros válidos para " ++ chordSymbol)
        | f0 :: _ => contourFinish s (sortedDegrees.headD "") f0

/-! ## scheduler.ts -/

/-- `MIN_MIDI` (`scheduler.ts` line 10). -/
def MIN_MIDI : Int := 60

/-- `MAX_MIDI` (`scheduler.ts` line 11). -/
def MAX_MIDI : Int := 84

/-- The `src` role tags of `exporter/toText.ts`. -/
inductive NoteSource where
  | approach
  | target
  | isolated
  | closure
deriving DecidableEq, Repr

/-- `ScheduledNote` (a `Note` with mandatory `src`). -/
structure ScheduledNote where
  t : Int
  dur : Int
  midi : Int
  pitch : String
  src : NoteSource
  chord : Option String
  degree : Option String
deriving DecidableEq, Repr

/-- `flattenFormulas` (`scheduler.ts` lines 37-45). -/
def flattenFormulas (collection : List (String × List (List Int))) : List FormulaDescriptor :=
  collection.flatMap (fun entry => entry.2.map (fun formula => ⟨formula, entry.1⟩))

/-- Lines 73-75 of `scheduler.ts`: floor the weights at zero and fall
back to a uniform weight of 1 per candidate when the total is zero. -/
def resolveWeights (formulas : List FormulaDescriptor) (weights : List Rat) : List Rat :=
  let sanitizedWeights := weights.map (fun value => max 0 value)
  let total := sanitizedWeights.foldl (· + ·) 0
  if total > 0 then sanitizedWeights else formulas.map (fun _ => 1)

/-- The per-candidate weights of `selectFormula` (`scheduler.ts` lines
66-72): base weight `max(1, pattern.length - 1)`, adjusted by the
policy when one is configured. -/
def formulaWeights (policy : Option PolicyConfig) (polS : PolicyState) (tipo : TipoValue)
    (formulas : List FormulaDescriptor) : List Rat :=
  formulas.map (fun candidate =>
    let baseWeight : Rat := max 1 ((candidate.pattern.length : Rat) - 1)
    match policy with
    | none => baseWeight
    | some cfg => evaluateFormulaWeight cfg polS tipo candidate baseWeight)

/-- `selectFormula` (`scheduler.ts` lines 47-79). -/
def selectFormula (theory : TheoryData) (profile : ChordProfile) (target : ContourTarget)
    (policy : Option PolicyConfig) (rngS : RngState) (polS : PolicyState) :
    Except String (List Int × RngState × PolicyState) :=
  match lookupStr profile.targets target.degree with
  | none => .error ("El perfil no contiene información para el grado " ++ target.degree)
  | some targetInfo =>
      let tipo := targetInfo.type
      if tipo ≠ TipoValue.num 1 ∧ tipo ≠ TipoValue.num 2 then
        .error ("No hay fórmulas disponibles para el grado " ++ target.degree)
      else do
        let formulasCollection ← getFormulas theory tipo
        let formulas := flattenFormulas formulasCollection
        if formulas.isEmpty then .error "No hay fórmulas disponibles para el tipo"
        else do
          let weights := formulaWeights policy polS tipo formulas
          let resolvedWeights := resolveWeights formulas weights
          let sel ← choiceWeighted formulas resolvedWeights rngS
          let polSNew := match policy with
            | some _ => some tipo
            | none => polS
          .ok (sel.1.pattern, sel.2, polSNew)

/-- The earliest time of a placement: the isolated note if present,
else the approach start (`scheduler.ts` line 91). -/
def earliestTime (placement : RhythmPlacement) : Int :=
  placement.isolated.getD placement.approachStart

/-- The anticipation lower bound: the previous window start, or 0 for
the first window (`scheduler.ts` line 89). -/
def lowerBoundFor (previousWindow : Option ChordWindow) : Int :=
  match previousWindow with
  | some pw => pw.startEighth
  | none => 0

/-- The `while` loop of `fitFormula` (`scheduler.ts` lines 90-97):
drop the earliest approach offset and re-place until the earliest time
respects the bound or only the target remains. -/
def fitLoop (window : ChordWindow) (current : List Int) (placement : RhythmPlacement)
    (lowerBound : Int) (landingPreference : Option (List Int)) :
    Except String (List Int × RhythmPlacement) :=
  match current with
  | a :: b :: rest =>
      if earliestTime placement ≥ lowerBound then .ok (a :: b :: rest, placement)
      else do
        let next := b :: rest
        let p ← computeRhythmPlacement window (next.length : Int) landingPreference
        fitLoop window next p lowerBound landingPreference
  | _ => .ok (current, placement)

/-- `fitFormula` (`scheduler.ts` lines 81-99). -/
def fitFormula (window : ChordWindow) (formula : List Int)
    (previousWindow : Option ChordWindow) (landingPreference : Option (List Int)) :
    Except String (List Int × RhythmPlacement) := do
  let placement ← computeRhythmPlacement window (formula.length : Int) landingPreference
  fitLoop window formula placement (lowerBoundFor previousWindow) landingPreference

/-- `realiseApproachMidis` (`scheduler.ts` lines 101-104). -/
def realiseApproachMidis (targetMidi : Int) (formula : List Int) : Except String (List Int) :=
  (formula.dropLast).mapM (fun offset => wrapMidiToRange (targetMidi + offset) MIN_MIDI MAX_MIDI)

/-- One approach note of `scheduleForWindow` (`scheduler.ts` lines
134-147): the note at `approachStart + index`, dropped when it would
anticipate past the previous window. -/
def approachNoteAt (window : ChordWindow) (previousWindow : Option ChordWindow)
    (approachStart : Int) (p : Nat × Int) : Option ScheduledNote :=
  let time := approachStart + (p.1 : Int)
  let anticipatesTooFar : Bool := match previousWindow with
    | some pw => time < window.startEighth ∧ time < pw.startEighth
    | none => false
  if anticipatesTooFar then none
  else some { t := time, dur := 1, midi := p.2, pitch := midiToPitch p.2,
              src := NoteSource.approach, chord := some window.chordSymbol,
              degree := none }

/-- `scheduleForWindow` (`scheduler.ts` lines 106-158): returns the
grown note list together with the updated RNG and policy states. -/
def scheduleForWindow (theory : TheoryData) (notes : List ScheduledNote)
    (window : ChordWindow) (profile : ChordProfile) (target : ContourTarget)
    (previousWindow : Option ChordWindow) (policy : Option PolicyConfig)
    (rngS : RngState) (polS : PolicyState) :
    Except String (List ScheduledNote × RngState × PolicyState) := do
  let sel ← selectFormula theory profile target policy rngS polS
  let landingPreference := match policy with
    | some cfg => getLandingPreferences cfg window.lengthEighths
    | none => none
  let fit ← fitFormula window sel.1 previousWindow landingPreference
  let formula := fit.1
  let placement := fit.2
  let approachMidis ← realiseApproachMidis target.midi formula
  let isolatedTime := match placement.isolated with
    | some i => if i < 0 ∧ previousWindow = none then none else some i
    | none => none
  let wrappedTargetMidi ← wrapMidiToRange target.midi MIN_MIDI MAX_MIDI
  let notes := match isolatedTime with
    | some i =>
        notes ++ [{ t := i, dur := 1, midi := wrappedTargetMidi,
                    pitch := midiToPitch wrappedTargetMidi, src := NoteSource.isolated,
                    chord := some window.chordSymbol, degree := none }]
    | none => notes
  let approachStart := placement.approachStart
  let approachNotes :=
    approachMidis.enum.filterMap (approachNoteAt window previousWindow approachStart)
  let notes := notes ++ approachNotes
  let notes := notes ++ [{ t := placement.landing, dur := 1, midi := wrappedTargetMidi,
                           pitch := target.pitch, src := NoteSource.target,
                           chord := some window.chordSymbol,
                           degree := some target.degree }]
  .ok (notes, sel.2.1, sel.2.2)

/-- `addClosure` (`scheduler.ts` lines 160-182). -/
def addClosure (notes : List ScheduledNote) : Except String (List ScheduledNote) :=
  let targetNotes := notes.filter (fun note => note.src = NoteSource.target)
  match targetNotes with
  | [] => .ok notes
  | t0 :: rest =>
      let lastTarget := (t0 :: rest).foldl
        (fun latest note => if note.t > latest.t then note else latest) t0
      let closureTime := lastTarget.t + 1
      let closureMidi := lastTarget.midi - 2
      let closureMidi :=
        if closureMidi < MIN_MIDI then
          if lastTarget.midi + 2 ≤ MAX_MIDI then lastTarget.midi + 2 else MIN_MIDI
        else closureMidi
      let interval := |closureMidi - lastTarget.midi|
      if interval > 11 then
        match wrapMidiToRange (lastTarget.midi - 5) MIN_MIDI MAX_MIDI with
        | .error e => .error e
        | .ok cm =>
            .ok (notes ++ [{ t := closureTime, dur := 1, midi := cm,
                             pitch := midiToPitch cm, src := NoteSource.closure,
                             chord := none, degree := none }])
      else
        .ok (notes ++ [{ t := closureTime, dur := 1, midi := closureMidi,
                         pitch := midiToPitch closureMidi, src := NoteSource.closure,
                         chord := none, degree := none }])

/-- The stable time sort `notes.sort((a, b) => a.t - b.t)`. -/
def sortNotes (notes : List ScheduledNote) : List ScheduledNote :=
  notes.insertionSort (fun a b => a.t ≤ b.t)

/-- `SchedulerContext`: the per-run RNG, contour generator and policy
manager (config plus mutable `lastTipo`). -/
structure SchedulerContext where
  rng : RngState
  contour : Option ContourState
  policy : Option (PolicyConfig × PolicyState)

/-- The `windows.forEach` loop of `scheduleProgression`
(`scheduler.ts` lines 192-197), threading every piece of state. -/
def scheduleWindows (theory : TheoryData) (policy : Option PolicyConfig)
    (windows : List ChordWindow) (previousWindow : Option ChordWindow)
    (notes : List ScheduledNote) (contourS : ContourState) (rngS : RngState)
    (polS : PolicyState) :
    Except String (List ScheduledNote × ContourState × RngState × PolicyState) :=
  match windows with
  | [] => .ok (notes, contourS, rngS, polS)
  | window :: rest => do
      let profile ← getChordProfile theory window.chordSymbol
      let nt ← nextTarget window.chordSymbol profile contourS
      let step ← scheduleForWindow theory notes window profile nt.1 previousWindow
        policy rngS polS
      scheduleWindows theory policy rest (some window) step.1 nt.2 step.2.1 step.2.2

/-- `scheduleProgression(progression, context)` (`scheduler.ts` lines
184-201). -/
def scheduleProgression (theory : TheoryData) (progression : String)
    (context : SchedulerContext) : Except String (List ScheduledNote) := do
  let windows ← parseProgression progression
  if windows.isEmpty then .ok []
  else do
    let contour := context.contour.getD (createContourGenerator defaultContourOptions)
    let pm := context.policy.getD (createPolicyManager, none)
    let result ← scheduleWindows theory (some pm.1) windows none [] contour context.rng pm.2
    let notes := sortNotes result.1
    let notes ← addClosure notes
    .ok (sortNotes notes)

/-- Demo chord profile. -/
def demoProfile : ChordProfile :=
  { symbol := "maj7", structureTones := [], extensions_default := [],
    targets := [("3", { reference := "", interval := none, type := TipoValue.num 1 })] }

/-- Demo theory. -/
def demoTheory : TheoryData :=
  { formulas_TIPO_1 := [("dobles", [[1, 0], [-1, 0]])],
    formulas_TIPO_2 := [],
    chords := [("maj7", demoProfile)] }

/-- Demo scheduling context. -/
def demoContext : SchedulerContext :=
  { rng := makeRng 42,
    contour := some (createContourGenerator { defaultContourOptions with slider := some 0 }),
    policy := none }

/-- Demo run. -/
def demoRun : Except String (List ScheduledNote) :=
  scheduleProgression demoTheory "| C |" demoContext

/-- The notes the demo run produces: one approach, the target landing
on offset 1, and the closure one eighth later. -/
def demoNotes : List ScheduledNote :=
  [{ t := 0, dur := 1, midi := 75, pitch := "C5", src := NoteSource.approach,
     chord := some "C", degree := none },
   { t := 1, dur := 1, midi := 76, pitch := "E5", src := NoteSource.target,
     chord := some "C", degree := some "3" },
   { t := 2, dur := 1, midi := 74, pitch := "D5", src := NoteSource.closure,
     chord := none, degree := none }]

/-- Modelled from the claim text (C5): the preferred offsets that
belong to the window's legal set, in the given order, followed by the
remaining legal offsets in their natural order. -/
def preferredMergedOrder (window : ChordWindow) (preferred : List Int) : List Int :=
  preferred.filter (fun o => (getLandingOptions window).contains o) ++
    (getLandingOptions window).filter (fun o => ¬ preferred.contains o)

/-- Modelled from the claim text (C8): the register bounds the claim
derives from the slider. -/
def rangeSpec (slider : Rat) (s : ContourState) : Prop :=
  s.rangeMin = min 84 (60 + jsRound (clampQ slider 0 1 * 8)) ∧
  s.rangeMax = max s.rangeMin (84 - jsRound (clampQ slider 0 1 * 8))

/-- The landing-parity property of a target note relative to its
window. -/
def targetWindowProp (w : ChordWindow) (n : ScheduledNote) : Prop :=
  n.chord = some w.chordSymbol ∧ 60 ≤ n.midi ∧ n.midi ≤ 84 ∧
  ∃ o ∈ getLandingOptions w, n.t = w.startEighth + o

/-- `scheduleForWindow` with the isolated-note drop guard removed: the
isolated note is always emitted when the placement requires one.
Everything else is literally the code of `scheduleForWindow`. -/
def scheduleForWindowNoDrop (theory : TheoryData) (notes : List ScheduledNote)
    (window : ChordWindow) (profile : ChordProfile) (target : ContourTarget)
    (previousWindow : Option ChordWindow) (policy : Option PolicyConfig)
    (rngS : RngState) (polS : PolicyState) :
    Except String (List ScheduledNote × RngState × PolicyState) := do
  let sel ← selectFormula theory profile target policy rngS polS
  let landingPreference := match policy with
    | some cfg => getLandingPreferences cfg window.lengthEighths
    | none => none
  let fit ← fitFormula window sel.1 previousWindow landingPreference
  let formula := fit.1
  let placement := fit.2
  let approachMidis ← realiseApproachMidis target.midi formula
  let isolatedTime := placement.isolated
  let wrappedTargetMidi ← wrapMidiToRange target.midi MIN_MIDI MAX_MIDI
  let notes := match isolatedTime with
    | some i =>
        notes ++ [{ t := i, dur := 1, midi := wrappedTargetMidi,
                    pitch := midiToPitch wrappedTargetMidi, src := NoteSource.isolated,
                    chord := some window.chordSymbol, degree := none }]
    | none => notes
  let approachStart := placement.approachStart
  let approachNotes :=
    approachMidis.enum.filterMap (approachNoteAt window previousWindow approachStart)
  let notes := notes ++ approachNotes
  let notes := notes ++ [{ t := placement.landing, dur := 1, midi := wrappedTargetMidi,
                           pitch := target.pitch, src := NoteSource.target,
                           chord := some window.chordSymbol,
                           degree := some target.degree }]
  .ok (notes, sel.2.1, sel.2.2)

/-- The window loop over `scheduleForWindowNoDrop`. -/
def scheduleWindowsNoDrop (theory : TheoryData) (policy : Option PolicyConfig)
    (windows : List ChordWindow) (previousWindow : Option ChordWindow)
    (notes : List ScheduledNote) (contourS : ContourState) (rngS : RngState)
    (polS : PolicyState) :
    Except String (List ScheduledNote × ContourState × RngState × PolicyState) :=
  match windows with
  | [] => .ok (notes, contourS, rngS, polS)
  | window :: rest => do
      let profile ← getChordProfile theory window.chordSymbol
      let nt ← nextTarget window.chordSymbol profile contourS
      let step ← scheduleForWindowNoDrop theory notes window profile nt.1 previousWindow
        policy rngS polS
      scheduleWindowsNoDrop theory policy rest (some window) step.1 nt.2 step.2.1 step.2.2

/-- `scheduleProgression` built on the drop-free window scheduler. -/
def scheduleProgressionNoDrop (theory : TheoryData) (progression : String)
    (context : SchedulerContext) : Except String (List ScheduledNote) := do
  let windows ← parseProgression progression
  if windows.isEmpty then .ok []
  else do
    let contour := context.contour.getD (createContourGenerator defaultContourOptions)
    let pm := context.policy.getD (createPolicyManager, none)
    let result ← scheduleWindowsNoDrop theory (some pm.1) windows none [] contour
      context.rng pm.2
    let notes := sortNotes result.1
    let notes ← addClosure notes
    .ok (sortNotes notes)

/-- A scheduling context built from a seed and a contour slider, the
two run parameters the engine exposes. -/
def mkRunContext (seed : Int) (slider : Option Rat) : SchedulerContext :=
  { rng := makeRng seed,
    contour := some (createContourGenerator
      { slider := slider, minMidi := none, maxMidi := none,
        startDegree := none, startMidi := none }),
    policy := none }

/-! ## Helper lemmas -/

/-- Inversion for `Except.bind` returning `ok`. -/
theorem except_bind_ok {α β : Type} {x : Except String α} {f : α → Except String β}
    {r : β} (h : (x >>= f) = .ok r) : ∃ a, x = .ok a ∧ f a = .ok r := by
  cases x with
  | error e => simp [Bind.bind, Except.bind] at h
  | ok a => exact ⟨a, rfl, by simpa [Bind.bind, Except.bind] using h⟩

/-- `Math.abs(a % 2)` in JS equals `|a| mod 2`. -/
theorem natAbs_tmod_two (a : Int) : (Int.tmod a 2).natAbs = a.natAbs % 2 := by
  cases a with
  | ofNat n => rfl
  | negSucc n =>
      show (-(Int.ofNat ((n + 1) % 2))).natAbs = (n + 1) % 2
      rw [Int.natAbs_neg]
      rfl

/-- `List.contains` agrees with membership for integers. -/
theorem contains_mem_int {l : List Int} {a : Int} (h : l.contains a = true) : a ∈ l := by
  simpa using h

/-- The default head of a nonempty list is a member. -/
theorem headD_mem_of_ne {l : List Int} (d : Int) (h : l ≠ []) : l.headD d ∈ l := by
  cases l with
  | nil => exact absurd rfl h
  | cons a t => simp

/-! ## Landing-option and merge lemmas -/

/-- The landing-option list is never empty. -/
theorem getLandingOptions_ne (w : ChordWindow) : getLandingOptions w ≠ [] := by
  unfold getLandingOptions
  split
  · simp
  · split <;> simp

/-- Every landing option is odd and lies between 1 and 7. -/
theorem getLandingOptions_props (w : ChordWindow) :
    ∀ o ∈ getLandingOptions w, o % 2 = 1 ∧ 1 ≤ o ∧ o ≤ 7 := by
  intro o ho
  unfold getLandingOptions at ho
  split at ho
  · simp at ho
    rcases ho with h | h <;> subst h <;> omega
  · split at ho <;>
      (simp at ho; rcases ho with h | h | h | h <;> subst h <;> omega)

/-- `seenStep` either keeps the merged list or appends the offset. -/
theorem seenStep_fst (acc : List Int × List Int) (o : Int) :
    (seenStep acc o).1 = acc.1 ∨ (seenStep acc o).1 = acc.1 ++ [o] := by
  unfold seenStep
  split
  · right; rfl
  · left; rfl

/-- `prefStep` either keeps the merged list or appends the offset. -/
theorem prefStep_fst (base : List Int) (acc : List Int × List Int) (o : Int) :
    (prefStep base acc o).1 = acc.1 ∨ (prefStep base acc o).1 = acc.1 ++ [o] := by
  unfold prefStep
  split
  · exact seenStep_fst acc o
  · left; rfl

/-- Folding an append-only step preserves the head and non-emptiness of
the merged list. -/
theorem foldl_append_only_headD (f : List Int × List Int → Int → List Int × List Int)
    (hf : ∀ acc o, (f acc o).1 = acc.1 ∨ (f acc o).1 = acc.1 ++ [o]) (d : Int) :
    ∀ (l : List Int) (acc : List Int × List Int), acc.1 ≠ [] →
      (l.foldl f acc).1.headD d = acc.1.headD d ∧ (l.foldl f acc).1 ≠ [] := by
  intro l
  induction l with
  | nil => intro acc h; exact ⟨rfl, h⟩
  | cons o tl ih =>
      intro acc h
      have hne : (f acc o).1 ≠ [] := by
        rcases hf acc o with h1 | h1 <;> rw [h1] <;> simp [h]
      have hhead : (f acc o).1.headD d = acc.1.headD d := by
        rcases hf acc o with h1 | h1
        · rw [h1]
        · rw [h1]
          cases hacc : acc.1 with
          | nil => exact absurd hacc h
          | cons x xs => simp
      have hrec := ih (f acc o) hne
      exact ⟨by rw [List.foldl_cons, hrec.1, hhead], by rw [List.foldl_cons]; exact hrec.2⟩

/-- If no element passes the base filter, the preferred loop is the
identity. -/
theorem prefFold_id (base : List Int) :
    ∀ (l : List Int) (acc : List Int × List Int),
      l.filter (fun o => base.contains o) = [] →
      l.foldl (prefStep base) acc = acc := by
  intro l
  induction l with
  | nil => intro acc _; rfl
  | cons o tl ih =>
      intro acc h
      rw [List.filter_cons] at h
      cases hc : base.contains o with
      | true =>
          rw [hc, if_pos rfl] at h
          exact absurd h (List.cons_ne_nil _ _)
      | false =>
          rw [hc, if_neg Bool.false_ne_true] at h
          rw [List.foldl_cons,
            show prefStep base acc o = acc from by
              unfold prefStep
              rw [hc, if_neg Bool.false_ne_true]]
          exact ih acc h

/-- Starting from the empty accumulator, the preferred loop produces a
merged list headed by the first legal preferred offset. -/
theorem prefFold_from_nil (base : List Int) (d : Int) :
    ∀ l : List Int,
      l.filter (fun o => base.contains o) ≠ [] →
      (l.foldl (prefStep base) ([], [])).1.headD d =
        (l.filter (fun o => base.contains o)).headD d ∧
      (l.foldl (prefStep base) ([], [])).1 ≠ [] := by
  intro l
  induction l with
  | nil => intro h; exact absurd rfl h
  | cons o tl ih =>
      intro h
      rw [List.filter_cons] at h ⊢
      cases hc : base.contains o with
      | true =>
          rw [if_pos rfl]
          rw [List.foldl_cons,
            show prefStep base ([], ([] : List Int)) o = ([o], [o]) from by
              unfold prefStep seenStep
              rw [hc, if_pos rfl]
              simp]
          have hpres := foldl_append_only_headD (prefStep base) (prefStep_fst base) d tl
            ([o], [o]) (by simp)
          exact ⟨by rw [hpres.1]; simp, hpres.2⟩
      | false =>
          rw [if_neg Bool.false_ne_true]
          rw [hc, if_neg Bool.false_ne_true] at h
          rw [List.foldl_cons,
            show prefStep base ([], ([] : List Int)) o = ([], []) from by
              unfold prefStep
              rw [hc, if_neg Bool.false_ne_true]]
          exact ih h

/-- Starting from the empty accumulator, the base loop produces a merged
list headed by the first base offset. -/
theorem seenFold_from_nil (d : Int) (l : List Int) (h : l ≠ []) :
    (l.foldl seenStep ([], [])).1.headD d = l.headD d ∧
    (l.foldl seenStep ([], [])).1 ≠ [] := by
  cases l with
  | nil => exact absurd rfl h
  | cons b tl =>
      rw [List.foldl_cons, show seenStep ([], ([] : List Int)) b = ([b], [b]) from by
        unfold seenStep
        simp]
      have hpres := foldl_append_only_headD seenStep seenStep_fst d tl ([b], [b]) (by simp)
      exact ⟨by rw [hpres.1]; simp, hpres.2⟩

/-- Every offset the preferred loop appends is legal. -/
theorem prefFold_subset (base : List Int) :
    ∀ (l : List Int) (acc : List Int × List Int),
      (∀ x ∈ acc.1, x ∈ base) →
      ∀ x ∈ (l.foldl (prefStep base) acc).1, x ∈ base := by
  intro l
  induction l with
  | nil => intro acc h; exact h
  | cons o tl ih =>
      intro acc h
      rw [List.foldl_cons]
      apply ih
      intro x hx
      cases hc : base.contains o with
      | true =>
          unfold prefStep seenStep at hx
          rw [hc, if_pos rfl] at hx
          split at hx
          · rcases List.mem_append.mp hx with hx1 | hx1
            · exact h x hx1
            · have hxo : x = o := by simpa using hx1
              exact hxo ▸ contains_mem_int hc
          · exact h x hx
      | false =>
          unfold prefStep at hx
          rw [hc, if_neg Bool.false_ne_true] at hx
          exact h x hx

/-- Every offset the base loop appends comes from the iterated list. -/
theorem seenFold_subset (P : Int → Prop) :
    ∀ (l : List Int) (acc : List Int × List Int),
      (∀ x ∈ acc.1, P x) → (∀ o ∈ l, P o) →
      ∀ x ∈ (l.foldl seenStep acc).1, P x := by
  intro l
  induction l with
  | nil => intro acc h _; exact h
  | cons o tl ih =>
      intro acc h hl
      rw [List.foldl_cons]
      refine ih (seenStep acc o) ?_ (fun y hy => hl y (by simp [hy]))
      intro x hx
      unfold seenStep at hx
      split at hx
      · rcases List.mem_append.mp hx with hx1 | hx1
        · exact h x hx1
        · have hxo : x = o := by simpa using hx1
          subst hxo
          exact hl x (by simp)
      · exact h x hx

/-- The merged landing order only contains legal offsets. -/
theorem mergeLandingPreferences_subset (base : List Int) (pref : Option (List Int)) :
    ∀ x ∈ mergeLandingPreferences base pref, x ∈ base := by
  intro x hx
  cases pref with
  | none => simpa [mergeLandingPreferences] using hx
  | some pl =>
      unfold mergeLandingPreferences at hx
      by_cases hpl : pl.isEmpty
      · simpa [hpl] using hx
      · simp only [hpl, Bool.false_eq_true, if_false] at hx
        split at hx
        · exact hx
        · refine seenFold_subset (· ∈ base) base _ ?_ (fun o ho => ho) x hx
          exact prefFold_subset base pl ([], []) (by simp)

/-- The merged landing order is nonempty whenever the base is. -/
theorem mergeLandingPreferences_ne (base : List Int) (pref : Option (List Int))
    (hb : base ≠ []) : mergeLandingPreferences base pref ≠ [] := by
  cases pref with
  | none => simpa [mergeLandingPreferences] using hb
  | some pl =>
      unfold mergeLandingPreferences
      by_cases hpl : pl.isEmpty
      · simpa [hpl] using hb
      · simp only [hpl, Bool.false_eq_true, if_false]
        split
        · exact hb
        · next hm => simpa using hm

/-- The chosen landing is the window start plus a legal offset. -/
theorem pickLanding_spec (w : ChordWindow) (pref : Option (List Int)) :
    ∃ o ∈ getLandingOptions w, pickLanding w pref = w.startEighth + o := by
  have hne := mergeLandingPreferences_ne (getLandingOptions w) pref (getLandingOptions_ne w)
  exact ⟨(mergeLandingPreferences (getLandingOptions w) pref).headD 1,
    mergeLandingPreferences_subset _ _ _ (headD_mem_of_ne 1 hne), rfl⟩

/-- A successful placement determines every field. -/
theorem computeRhythmPlacement_fields {window : ChordWindow} {n : Int}
    {pref : Option (List Int)} {p : RhythmPlacement}
    (h : computeRhythmPlacement window n pref = .ok p) :
    p.landing = pickLanding window pref ∧
    p.approachStart = p.landing - (n - 1) ∧
    p.isolated = (if p.approachStart.natAbs % 2 = 1 then some (p.approachStart - 1) else none) ∧
    p.totalStart = p.isolated.getD p.approachStart ∧
    1 ≤ n := by
  unfold computeRhythmPlacement at h
  split at h
  · exact absurd h (by simp)
  · next hn =>
      rw [Except.ok.injEq] at h
      subst h
      refine ⟨rfl, rfl, ?_, rfl, by omega⟩
      simp only [natAbs_tmod_two]

/-- A placement request with a positive formula length succeeds. -/
theorem computeRhythmPlacement_isOk {window : ChordWindow} {n : Int}
    {pref : Option (List Int)} (h : 1 ≤ n) :
    ∃ p, computeRhythmPlacement window n pref = .ok p := by
  unfold computeRhythmPlacement
  rw [if_neg (by omega)]
  exact ⟨_, rfl⟩

/-- Claim C6: for `approachCount ≥ 1` the placement satisfies
`approachStart = landing - (approachCount - 1)`, carries an isolated
note at `approachStart - 1` exactly when `|approachStart| mod 2 = 1`,
and sets `totalStart` to the isolated time when present, else
`approachStart`; the call fails exactly when `approachCount ≤ 0`. -/
theorem claim_C6_placement_postcondition (window : ChordWindow) (approachCount : Int)
    (preferredLanding : Option (List Int)) :
    (1 ≤ approachCount →
      ∃ p, computeRhythmPlacement window approachCount preferredLanding = .ok p ∧
        p.approachStart = p.landing - (approachCount - 1) ∧
        p.isolated =
          (if p.approachStart.natAbs % 2 = 1 then some (p.approachStart - 1) else none) ∧
        p.totalStart = p.isolated.getD p.approachStart) ∧
    ((∃ msg, computeRhythmPlacement window approachCount preferredLanding = .error msg) ↔
      approachCount ≤ 0) := by
  constructor
  · intro hge
    obtain ⟨p, hp⟩ :=
      @computeRhythmPlacement_isOk window approachCount preferredLanding hge
    obtain ⟨-, h2, h3, h4, -⟩ := computeRhythmPlacement_fields hp
    exact ⟨p, hp, h2, h3, h4⟩
  · constructor
    · rintro ⟨msg, hmsg⟩
      by_contra hgt
      obtain ⟨p, hp⟩ :=
        @computeRhythmPlacement_isOk window approachCount preferredLanding (by omega)
      rw [hp] at hmsg
      simp at hmsg
    · intro hle
      refine ⟨"La fórmula debe tener al menos una nota (el target)", ?_⟩
      unfold computeRhythmPlacement
      rw [if_pos hle]

/-- Witness for C6 at the window `[0, 8)` with a three-note formula. -/
theorem claim_C6_witness :
    ∃ p, computeRhythmPlacement ⟨"Cmaj7", 0, 8⟩ 3 none = .ok p ∧
      p.approachStart = p.landing - (3 - 1) ∧
      p.isolated =
        (if p.approachStart.natAbs % 2 = 1 then some (p.approachStart - 1) else none) ∧
      p.totalStart = p.isolated.getD p.approachStart :=
  (claim_C6_placement_postcondition ⟨"Cmaj7", 0, 8⟩ 3 none).1 (by decide)

/-- Unfolding of `mergeLandingPreferences` on a nonempty preference. -/
theorem mergeLandingPreferences_eq (base pl : List Int) (hpl : pl.isEmpty = false) :
    mergeLandingPreferences base (some pl) =
      (if (base.foldl seenStep (pl.foldl (prefStep base) ([], []))).1.isEmpty then base
       else (base.foldl seenStep (pl.foldl (prefStep base) ([], []))).1) := by
  simp only [mergeLandingPreferences, hpl, Bool.false_eq_true, if_false]

/-- The head of the merged landing order is the head of the list
described by the specification: legal preferred offsets in order, then
the remaining legal offsets. -/
theorem merge_headD_eq (base pl : List Int) (hb : base ≠ []) :
    (mergeLandingPreferences base (some pl)).headD 1 =
      (pl.filter (fun o => base.contains o) ++
        base.filter (fun o => ¬ pl.contains o)).headD 1 := by
  by_cases hpl : pl.isEmpty
  · have hpl' : pl = [] := List.isEmpty_iff.mp hpl
    subst hpl'
    rw [show mergeLandingPreferences base (some []) = base from by
      unfold mergeLandingPreferences; simp]
    simp
  · cases hF : pl.filter (fun o => base.contains o) with
    | nil =>
        rw [mergeLandingPreferences_eq base pl (by simpa using hpl)]
        rw [prefFold_id base pl ([], []) hF]
        obtain ⟨hhead, hne⟩ := seenFold_from_nil 1 base hb
        rw [if_neg (by simpa using hne), hhead, List.nil_append]
        cases base with
        | nil => exact absurd rfl hb
        | cons b btl =>
            have hnotin : pl.contains b = false := by
              by_contra hq
              have hq' : pl.contains b = true := by
                cases h2 : pl.contains b
                · exact absurd h2 hq
                · rfl
              have hbmem : b ∈ pl := contains_mem_int hq'
              have : b ∈ pl.filter (fun o => (b :: btl).contains o) :=
                List.mem_filter.mpr ⟨hbmem, by simp⟩
              rw [hF] at this
              simp at this
            have hbn : b ∉ pl := by
              intro hm
              have hmt : pl.contains b = true := by simpa using hm
              rw [hnotin] at hmt
              exact Bool.false_ne_true hmt
            simp [List.filter_cons, hbn]
    | cons o0 Ftl =>
        rw [mergeLandingPreferences_eq base pl (by simpa using hpl)]
        have hFne : pl.filter (fun o => base.contains o) ≠ [] := by
          rw [hF]; exact List.cons_ne_nil _ _
        obtain ⟨hh, hne⟩ := prefFold_from_nil base 1 pl hFne
        obtain ⟨hh2, hne2⟩ := foldl_append_only_headD seenStep seenStep_fst 1 base _ hne
        rw [if_neg (by simpa using hne2), hh2, hh, hF]
        simp
        

/-- Claim C5: with a preferred landing order the placement lands on the
window start plus the first offset of the merged preference list; in
particular `[3, 1]` on a 4-eighth window lands at `start + 3`. -/
theorem claim_C5_preferred_landing (window : ChordWindow) (formulaLength : Int)
    (preferred : List Int) (p : RhythmPlacement)
    (hne : preferred ≠ [])
    (h : computeRhythmPlacement window formulaLength (some preferred) = .ok p) :
    p.landing = window.startEighth + (preferredMergedOrder window preferred).headD 1 ∧
    (window.lengthEighths = 4 → preferred = [3, 1] →
      p.landing = window.startEighth + 3) := by
  obtain ⟨hland, -, -, -, -⟩ := computeRhythmPlacement_fields h
  have hcore :
      p.landing = window.startEighth + (preferredMergedOrder window preferred).headD 1 := by
    rw [hland]
    show window.startEighth +
        (mergeLandingPreferences (getLandingOptions window) (some preferred)).headD 1 = _
    rw [merge_headD_eq _ _ (getLandingOptions_ne window)]
    rfl
  refine ⟨hcore, fun hlen hpref => ?_⟩
  subst hpref
  rw [hcore]
  have hopts : getLandingOptions window = [1, 3] := by
    unfold getLandingOptions
    rw [if_pos hlen]
  unfold preferredMergedOrder
  rw [hopts]
  norm_num

/-- Witness for C5: preference `[3, 1]` on the 4-eighth window starting
at eighth 8 lands at eighth 11. -/
theorem claim_C5_witness :
    ((⟨11, 10, 10, none⟩ : RhythmPlacement).landing =
      (⟨"F7", 8, 4⟩ : ChordWindow).startEighth +
        (preferredMergedOrder ⟨"F7", 8, 4⟩ [3, 1]).headD 1) ∧
    ((⟨"F7", 8, 4⟩ : ChordWindow).lengthEighths = 4 → ([3, 1] : List Int) = [3, 1] →
      (⟨11, 10, 10, none⟩ : RhythmPlacement).landing =
        (⟨"F7", 8, 4⟩ : ChordWindow).startEighth + 3) :=
  claim_C5_preferred_landing ⟨"F7", 8, 4⟩ 2 [3, 1] ⟨11, 10, 10, none⟩
    (by decide) (by rfl)

/-- The fitting loop always succeeds on a formula whose initial
placement succeeded, returning a nonempty suffix whose placement either
meets the lower bound or has shrunk to the bare target. -/
theorem fitLoop_spec (window : ChordWindow) (lb : Int) (pref : Option (List Int)) :
    ∀ (current : List Int) (p : RhythmPlacement),
      computeRhythmPlacement window (current.length : Int) pref = .ok p →
      ∃ fitted q, fitLoop window current p lb pref = .ok (fitted, q) ∧
        fitted ≠ [] ∧ fitted <:+ current ∧
        computeRhythmPlacement window (fitted.length : Int) pref = .ok q ∧
        (lb ≤ earliestTime q ∨ fitted.length = 1) := by
  intro current
  induction current with
  | nil =>
      intro p hp
      exfalso
      unfold computeRhythmPlacement at hp
      rw [if_pos (by simp)] at hp
      simp at hp
  | cons a tl ih =>
      intro p hp
      cases tl with
      | nil =>
          exact ⟨[a], p, rfl, by simp, List.suffix_refl _, hp, Or.inr rfl⟩
      | cons b rest =>
          by_cases hcond : earliestTime p ≥ lb
          · refine ⟨a :: b :: rest, p, ?_, by simp, List.suffix_refl _, hp, Or.inl hcond⟩
            simp only [fitLoop, if_pos hcond]
          · obtain ⟨p', hp'⟩ := @computeRhythmPlacement_isOk window
              ((b :: rest).length : Int) pref
              (by exact_mod_cast Nat.succ_le_succ (Nat.zero_le rest.length))
            obtain ⟨fitted, q, hrun, hne, hsuf, hq, hdisj⟩ := ih p' hp'
            refine ⟨fitted, q, ?_, hne, hsuf.trans (List.suffix_cons a _), hq, hdisj⟩
            simp only [fitLoop, if_neg hcond]
            rw [hp']
            simpa [Bind.bind, Except.bind] using hrun

/-- Claim C4: `fitFormula` terminates (it is a total function of this
development) and, on every nonempty formula, returns a nonempty suffix
of the input whose placement either starts at or after the lower bound
(the previous window's start, or 0 for the first window) or consists of
the target alone. -/
theorem claim_C4_fitFormula (window : ChordWindow) (formula : List Int)
    (previousWindow : Option ChordWindow) (landingPreference : Option (List Int))
    (hne : formula ≠ []) :
    ∃ fitted placement,
      fitFormula window formula previousWindow landingPreference = .ok (fitted, placement) ∧
      1 ≤ fitted.length ∧ fitted <:+ formula ∧
      (lowerBoundFor previousWindow ≤ earliestTime placement ∨ fitted.length = 1) := by
  have hlen : 1 ≤ (formula.length : Int) := by
    cases formula with
    | nil => exact absurd rfl hne
    | cons a tl => exact_mod_cast Nat.succ_le_succ (Nat.zero_le tl.length)
  obtain ⟨p, hp⟩ :=
    @computeRhythmPlacement_isOk window (formula.length : Int) landingPreference hlen
  obtain ⟨fitted, q, hrun, hfe, hsuf, hq, hdisj⟩ :=
    fitLoop_spec window (lowerBoundFor previousWindow) landingPreference formula p hp
  refine ⟨fitted, q, ?_, ?_, hsuf, hdisj⟩
  · unfold fitFormula
    rw [hp]
    simpa [Bind.bind, Except.bind] using hrun
  · cases fitted with
    | nil => exact absurd rfl hfe
    | cons a tl => simp

/-- Witness for C4: the three-note formula `[1, 2, 0]` on the first
window is trimmed until it fits. -/
theorem claim_C4_witness :
    ∃ fitted placement,
      fitFormula ⟨"Cmaj7", 0, 8⟩ [1, 2, 0] none none = .ok (fitted, placement) ∧
      1 ≤ fitted.length ∧ fitted <:+ [1, 2, 0] ∧
      (lowerBoundFor none ≤ earliestTime placement ∨ fitted.length = 1) :=
  claim_C4_fitFormula ⟨"Cmaj7", 0, 8⟩ [1, 2, 0] none none (by decide)

/-- Inversion of a successful `fitFormula` call. -/
theorem fitFormula_inv {window : ChordWindow} {formula : List Int}
    {previousWindow : Option ChordWindow} {landingPreference : Option (List Int)}
    {fitted : List Int} {placement : RhythmPlacement}
    (h : fitFormula window formula previousWindow landingPreference = .ok (fitted, placement)) :
    fitted ≠ [] ∧
    computeRhythmPlacement window (fitted.length : Int) landingPreference = .ok placement ∧
    (lowerBoundFor previousWindow ≤ earliestTime placement ∨ fitted.length = 1) := by
  unfold fitFormula at h
  obtain ⟨p0, hp0, hrun⟩ := except_bind_ok h
  obtain ⟨f', q', hrun', hfe, hsuf, hq, hdisj⟩ :=
    fitLoop_spec window (lowerBoundFor previousWindow) landingPreference formula p0 hp0
  have heq := hrun'.symm.trans hrun
  rw [Except.ok.injEq, Prod.mk.injEq] at heq
  obtain ⟨h1, h2⟩ := heq
  subst h1
  subst h2
  exact ⟨hfe, hq, hdisj⟩

/-- Folding addition equals adding the list sum. -/
theorem foldl_add_eq_sum (l : List Rat) : ∀ a : Rat, l.foldl (· + ·) a = a + l.sum := by
  induction l with
  | nil => intro a; simp
  | cons x tl ih =>
      intro a
      rw [List.foldl_cons, ih, List.sum_cons]
      ring

/-- The uniform weight list sums to the candidate count. -/
theorem map_one_sum (l : List FormulaDescriptor) :
    (l.map (fun _ => (1 : Rat))).sum = l.length := by
  induction l with
  | nil => simp
  | cons x tl ih =>
      rw [List.map_cons, List.sum_cons, ih, List.length_cons]
      push_cast
      ring

/-- The resolved weight vector always has a strictly positive total. -/
theorem resolveWeights_sum_pos (formulas : List FormulaDescriptor) (weights : List Rat)
    (hne : formulas ≠ []) :
    0 < (resolveWeights formulas weights).foldl (· + ·) 0 := by
  unfold resolveWeights
  dsimp only
  split
  · next h => exact h
  · next h =>
      rw [foldl_add_eq_sum, map_one_sum, zero_add]
      have : 0 < formulas.length := List.length_pos.mpr hne
      exact_mod_cast this

/-- Every resolved weight is nonnegative. -/
theorem resolveWeights_nonneg (formulas : List FormulaDescriptor) (weights : List Rat) :
    ∀ w ∈ resolveWeights formulas weights, 0 ≤ w := by
  intro w hw
  unfold resolveWeights at hw
  dsimp only at hw
  split at hw
  · obtain ⟨v, -, hv⟩ := List.mem_map.mp hw
    rw [← hv]
    exact le_max_left 0 v
  · obtain ⟨-, -, hv⟩ := List.mem_map.mp hw
    rw [← hv]
    exact zero_le_one

/-- The resolved weight vector has one entry per candidate. -/
theorem resolveWeights_length (formulas : List FormulaDescriptor) (weights : List Rat)
    (hlen : weights.length = formulas.length) :
    (resolveWeights formulas weights).length = formulas.length := by
  unfold resolveWeights
  dsimp only
  split
  · simpa using hlen
  · simp

/-- When every adjusted weight is nonpositive, the resolution is the
uniform vector of ones. -/
theorem resolveWeights_uniform (formulas : List FormulaDescriptor) (weights : List Rat)
    (hle : ∀ w ∈ weights, w ≤ 0) :
    resolveWeights formulas weights = formulas.map (fun _ => 1) := by
  unfold resolveWeights
  dsimp only
  have hz : weights.map (fun v => max 0 v) = weights.map (fun _ => (0 : Rat)) := by
    apply List.map_congr_left
    intro v hv
    exact max_eq_left (hle v hv)
  rw [hz]
  have hsum : (weights.map (fun _ => (0 : Rat))).foldl (· + ·) 0 = 0 := by
    rw [foldl_add_eq_sum, zero_add]
    simp
  rw [hsum]
  rw [if_neg (lt_irrefl 0)]

/-- `choiceWeighted` succeeds on a nonempty item list with matching
nonnegative weights of nonzero total. -/
theorem choiceWeighted_ok {α : Type} (items : List α) (weights : List Rat) (s : RngState)
    (hne : items ≠ []) (hlen : items.length = weights.length)
    (hnn : ∀ w ∈ weights, 0 ≤ w) (htot : weights.foldl (· + ·) 0 ≠ 0) :
    ∃ r, choiceWeighted items weights s = .ok r := by
  cases items with
  | nil => exact absurd rfl hne
  | cons first rest =>
      simp only [choiceWeighted]
      rw [if_neg (by simp only [ne_eq, not_not]; exact hlen)]
      rw [if_neg (by
        intro hany
        rw [List.any_eq_true] at hany
        obtain ⟨w, hw, hwlt⟩ := hany
        exact absurd (hnn w hw) (not_le.mpr (by simpa using hwlt)))]
      rw [if_neg htot]
      exact ⟨_, rfl⟩

/-- Claim C7: whenever the target degree resolves to formula type 1 or
2 and the flattened catalog is nonempty, the weight vector handed to
`choiceWeighted` has a strictly positive total (so its zero-total error
branch is unreachable), nonpositive adjusted weights collapse to the
uniform vector of ones, and `selectFormula` succeeds. -/
theorem claim_C7_zero_weight_fallback (theory : TheoryData) (profile : ChordProfile)
    (target : ContourTarget) (policy : Option PolicyConfig) (rngS : RngState)
    (polS : PolicyState) (ti : TargetInfo) (coll : List (String × List (List Int)))
    (hlookup : lookupStr profile.targets target.degree = some ti)
    (htipo : ti.type = TipoValue.num 1 ∨ ti.type = TipoValue.num 2)
    (hcoll : getFormulas theory ti.type = .ok coll)
    (hne : flattenFormulas coll ≠ []) :
    0 < (resolveWeights (flattenFormulas coll)
          (formulaWeights policy polS ti.type (flattenFormulas coll))).foldl (· + ·) 0 ∧
    ((∀ w ∈ formulaWeights policy polS ti.type (flattenFormulas coll), w ≤ 0) →
      resolveWeights (flattenFormulas coll)
          (formulaWeights policy polS ti.type (flattenFormulas coll)) =
        (flattenFormulas coll).map (fun _ => 1)) ∧
    ∃ r, selectFormula theory profile target policy rngS polS = .ok r := by
  refine ⟨resolveWeights_sum_pos _ _ hne,
    fun hle => resolveWeights_uniform _ _ hle, ?_⟩
  obtain ⟨r0, hr0⟩ := choiceWeighted_ok (flattenFormulas coll)
    (resolveWeights (flattenFormulas coll)
      (formulaWeights policy polS ti.type (flattenFormulas coll))) rngS hne
    (by
      rw [resolveWeights_length]
      exact (List.length_map _ _).symm ▸ rfl)
    (resolveWeights_nonneg _ _)
    (ne_of_gt (resolveWeights_sum_pos _ _ hne))
  unfold selectFormula
  rw [hlookup]
  dsimp only
  rw [if_neg (by rcases htipo with h | h <;> simp [h])]
  rw [hcoll]
  simp only [Bind.bind, Except.bind]
  rw [show (flattenFormulas coll).isEmpty = false by simpa using hne]
  simp only [Bool.false_eq_true, if_false]
  rw [hr0]
  exact ⟨_, rfl⟩

/-- Witness for C7 on the demo theory: type-1 catalog with two
candidates. -/
theorem claim_C7_witness :
    0 < (resolveWeights (flattenFormulas demoTheory.formulas_TIPO_1)
          (formulaWeights none none (TipoValue.num 1)
            (flattenFormulas demoTheory.formulas_TIPO_1))).foldl (· + ·) 0 ∧
    ((∀ w ∈ formulaWeights none none (TipoValue.num 1)
          (flattenFormulas demoTheory.formulas_TIPO_1), w ≤ 0) →
      resolveWeights (flattenFormulas demoTheory.formulas_TIPO_1)
          (formulaWeights none none (TipoValue.num 1)
            (flattenFormulas demoTheory.formulas_TIPO_1)) =
        (flattenFormulas demoTheory.formulas_TIPO_1).map (fun _ => 1)) ∧
    ∃ r, selectFormula demoTheory demoProfile ⟨"3", 76, "E5"⟩ none (makeRng 42) none = .ok r :=
  claim_C7_zero_weight_fallback demoTheory demoProfile ⟨"3", 76, "E5"⟩ none (makeRng 42) none
    ⟨"", none, TipoValue.num 1⟩ demoTheory.formulas_TIPO_1 (by rfl) (Or.inl rfl) (by rfl)
    (by decide)

/-- Evaluation rule for `jsRound`. -/
theorem jsRound_val (q : Rat) (z : Int) (h1 : (z : Rat) ≤ q + 1/2) (h2 : q + 1/2 < z + 1) :
    jsRound q = z := by
  unfold jsRound
  exact Int.floor_eq_iff.mpr ⟨h1, by exact_mod_cast h2⟩

/-- The wrapped value lies in the register whenever it is nonempty. -/
theorem wrapValue_mem (midi minv maxv : Int) (h : minv ≤ maxv) :
    minv ≤ wrapValue midi minv maxv ∧ wrapValue midi minv maxv ≤ maxv := by
  unfold wrapValue
  dsimp only
  split_ifs <;> omega

/-- `wrapMidiToRange` succeeds exactly on nonempty registers. -/
theorem wrapMidiToRange_ok {midi minv maxv v : Int}
    (h : wrapMidiToRange midi minv maxv = .ok v) :
    minv ≤ maxv ∧ v = wrapValue midi minv maxv := by
  unfold wrapMidiToRange at h
  split at h
  · simp at h
  · next hgt =>
      rw [Except.ok.injEq] at h
      exact ⟨by omega, h.symm⟩

/-- Every field of a successful `contourFinish`. -/
theorem contourFinish_spec {s : ContourState} {deg : String} {m : Int}
    {tgt : ContourTarget} {s' : ContourState}
    (h : contourFinish s deg m = .ok (tgt, s')) :
    s.rangeMin ≤ s.rangeMax ∧
    tgt.midi = wrapValue m s.rangeMin s.rangeMax ∧
    s'.rangeMin = s.rangeMin ∧ s'.rangeMax = s.rangeMax ∧
    s'.direction =
      (if tgt.midi ≥ s.rangeMax - 2 then -1
       else if tgt.midi ≤ s.rangeMin + 2 then 1
       else if s.direction = 1 then -1 else 1) := by
  unfold contourFinish at h
  obtain ⟨v, hv, h⟩ := except_bind_ok h
  obtain ⟨hle, hval⟩ := wrapMidiToRange_ok hv
  dsimp only at h
  rw [Except.ok.injEq, Prod.mk.injEq] at h
  obtain ⟨h1, h2⟩ := h
  subst h1
  subst h2
  exact ⟨hle, hval, rfl, rfl, rfl⟩

/-- Every successful `nextTarget` call ends in `contourFinish`. -/
theorem nextTarget_finish {sym : String} {profile : ChordProfile}
    {s : ContourState} {tgt : ContourTarget} {s' : ContourState}
    (h : nextTarget sym profile s = .ok (tgt, s')) :
    ∃ deg m, contourFinish s deg m = .ok (tgt, s') := by
  unfold nextTarget at h
  dsimp only at h
  split at h
  · simp at h
  · obtain ⟨root, hroot, h⟩ := except_bind_ok h
    obtain ⟨rootMidi, hrm, h⟩ := except_bind_ok h
    obtain ⟨sel, hsel, h⟩ := except_bind_ok h
    split at h
    · exact ⟨_, _, h⟩
    · obtain ⟨fallback, hfb, h⟩ := except_bind_ok h
      split at h
      · simp at h
      · exact ⟨_, _, h⟩

/-- Claim C8: a generator built from a slider has register
`rangeMin = min 84 (60 + round(clamp(slider)*8))`,
`rangeMax = max rangeMin (84 - round(clamp(slider)*8))`; every target a
`nextTarget` call returns lies inside the register, which the call
preserves; slider 0 yields `[60, 84]` and slider 1 a band of width at
most 8. -/
theorem claim_C8_contour_register (slider : Rat) (sym : String) (profile : ChordProfile)
    (s : ContourState) (tgt : ContourTarget) (s' : ContourState)
    (hs : rangeSpec slider s)
    (h : nextTarget sym profile s = .ok (tgt, s')) :
    rangeSpec slider (createContourGenerator
      { slider := some slider, minMidi := none, maxMidi := none,
        startDegree := none, startMidi := none }) ∧
    s.rangeMin ≤ tgt.midi ∧ tgt.midi ≤ s.rangeMax ∧
    rangeSpec slider s' ∧
    (slider = 0 → s.rangeMin = 60 ∧ s.rangeMax = 84) ∧
    (slider = 1 → s.rangeMax - s.rangeMin ≤ 8) := by
  obtain ⟨deg, m, hfin⟩ := nextTarget_finish h
  obtain ⟨hle, hmidi, hmin', hmax', -⟩ := contourFinish_spec hfin
  have hmem := wrapValue_mem m s.rangeMin s.rangeMax hle
  refine ⟨⟨rfl, rfl⟩, by rw [hmidi]; exact hmem.1, by rw [hmidi]; exact hmem.2, ?_, ?_, ?_⟩
  · exact ⟨by rw [hmin']; exact hs.1, by rw [hmax', hmin']; exact hs.2⟩
  · intro h0
    subst h0
    have hr : jsRound (clampQ 0 0 1 * 8) = 0 := by
      rw [show clampQ 0 0 1 * 8 = 0 by unfold clampQ; norm_num]
      exact jsRound_val 0 0 (by norm_num) (by norm_num)
    rw [hs.1, hs.2, hs.1, hr]
    norm_num
  · intro h1
    subst h1
    have hr : jsRound (clampQ 1 0 1 * 8) = 8 := by
      rw [show clampQ 1 0 1 * 8 = 8 by unfold clampQ; norm_num]
      exact jsRound_val 8 8 (by norm_num) (by norm_num)
    rw [hs.2, hs.1, hr]
    norm_num

/-- Claim C9: after every successful pick the stored direction becomes
descending within two semitones of the ceiling, ascending within two of
the floor, and otherwise flips — so strictly inside the margins the
direction alternates between consecutive calls. -/
theorem claim_C9_direction_update (sym : String) (profile : ChordProfile)
    (s : ContourState) (tgt : ContourTarget) (s' : ContourState)
    (h : nextTarget sym profile s = .ok (tgt, s')) :
    s'.direction =
      (if tgt.midi ≥ s.rangeMax - 2 then -1
       else if tgt.midi ≤ s.rangeMin + 2 then 1
       else if s.direction = 1 then -1 else 1) ∧
    (s.rangeMin + 2 < tgt.midi → tgt.midi < s.rangeMax - 2 →
      s'.direction = (if s.direction = 1 then -1 else 1)) := by
  obtain ⟨deg, m, hfin⟩ := nextTarget_finish h
  obtain ⟨-, -, -, -, hdir⟩ := contourFinish_spec hfin
  refine ⟨hdir, fun hlo hhi => ?_⟩
  rw [hdir, if_neg (by omega), if_neg (by omega)]

/-- Witness for C8 on a slider-0 generator picking the first target. -/
theorem claim_C8_witness :
    rangeSpec 0 (createContourGenerator
      { slider := some 0, minMidi := none, maxMidi := none,
        startDegree := none, startMidi := none }) ∧
    (createContourGenerator
      { slider := some 0, minMidi := none, maxMidi := none,
        startDegree := none, startMidi := none }).rangeMin ≤
      (⟨"3", 76, "E5"⟩ : ContourTarget).midi ∧
    (⟨"3", 76, "E5"⟩ : ContourTarget).midi ≤
      (createContourGenerator
        { slider := some 0, minMidi := none, maxMidi := none,
          startDegree := none, startMidi := none }).rangeMax ∧
    rangeSpec 0 ⟨60, 84, some 76, -1⟩ ∧
    ((0 : Rat) = 0 →
      (createContourGenerator
        { slider := some 0, minMidi := none, maxMidi := none,
          startDegree := none, startMidi := none }).rangeMin = 60 ∧
      (createContourGenerator
        { slider := some 0, minMidi := none, maxMidi := none,
          startDegree := none, startMidi := none }).rangeMax = 84) ∧
    ((0 : Rat) = 1 →
      (createContourGenerator
        { slider := some 0, minMidi := none, maxMidi := none,
          startDegree := none, startMidi := none }).rangeMax -
        (createContourGenerator
          { slider := some 0, minMidi := none, maxMidi := none,
            startDegree := none, startMidi := none }).rangeMin ≤ 8) :=
  claim_C8_contour_register 0 "C" demoProfile
    (createContourGenerator
      { slider := some 0, minMidi := none, maxMidi := none,
        startDegree := none, startMidi := none })
    ⟨"3", 76, "E5"⟩ ⟨60, 84, some 76, -1⟩ ⟨rfl, rfl⟩ (by with_unfolding_all rfl)

/-- Witness for C9 on the same pick: the direction flips from
ascending to descending. -/
theorem claim_C9_witness :
    (⟨60, 84, some 76, -1⟩ : ContourState).direction =
      (if (⟨"3", 76, "E5"⟩ : ContourTarget).midi ≥
          (createContourGenerator
            { slider := some 0, minMidi := none, maxMidi := none,
              startDegree := none, startMidi := none }).rangeMax - 2 then -1
       else if (⟨"3", 76, "E5"⟩ : ContourTarget).midi ≤
          (createContourGenerator
            { slider := some 0, minMidi := none, maxMidi := none,
              startDegree := none, startMidi := none }).rangeMin + 2 then 1
       else if (createContourGenerator
          { slider := some 0, minMidi := none, maxMidi := none,
            startDegree := none, startMidi := none }).direction = 1 then -1 else 1) ∧
    ((createContourGenerator
        { slider := some 0, minMidi := none, maxMidi := none,
          startDegree := none, startMidi := none }).rangeMin + 2 <
        (⟨"3", 76, "E5"⟩ : ContourTarget).midi →
      (⟨"3", 76, "E5"⟩ : ContourTarget).midi <
        (createContourGenerator
          { slider := some 0, minMidi := none, maxMidi := none,
            startDegree := none, startMidi := none }).rangeMax - 2 →
      (⟨60, 84, some 76, -1⟩ : ContourState).direction =
        (if (createContourGenerator
            { slider := some 0, minMidi := none, maxMidi := none,
              startDegree := none, startMidi := none }).direction = 1 then -1 else 1)) :=
  claim_C9_direction_update "C" demoProfile
    (createContourGenerator
      { slider := some 0, minMidi := none, maxMidi := none,
        startDegree := none, startMidi := none })
    ⟨"3", 76, "E5"⟩ ⟨60, 84, some 76, -1⟩ (by with_unfolding_all rfl)

/-! ## Parser invariants -/

/-- Every window produced by the bar loop starts at a nonnegative even
eighth when the cursor does. -/
theorem parseBars_windows : ∀ (bars : List String) (cursor : Int) (ws : List ChordWindow),
    parseBars bars cursor = .ok ws → 0 ≤ cursor → cursor % 2 = 0 →
    ∀ w ∈ ws, 0 ≤ w.startEighth ∧ w.startEighth % 2 = 0 := by
  intro bars
  induction bars with
  | nil =>
      intro cursor ws h _ _ w hw
      unfold parseBars at h
      rw [Except.ok.injEq] at h
      subst h
      simp at hw
  | cons bar rest ih =>
      intro cursor ws h hge hmod w hw
      unfold parseBars at h
      dsimp only at h
      split at h
      · exact ih cursor ws h hge hmod w hw
      · obtain ⟨tail, htail, h⟩ := except_bind_ok h
        rw [Except.ok.injEq] at h
        subst h
        rcases List.mem_cons.mp hw with hw1 | hw1
        · subst hw1
          exact ⟨hge, hmod⟩
        · exact ih (cursor + 8) tail htail (by omega) (by omega) w hw1
      · obtain ⟨tail, htail, h⟩ := except_bind_ok h
        rw [Except.ok.injEq] at h
        subst h
        rcases List.mem_cons.mp hw with hw1 | hw1
        · subst hw1
          exact ⟨hge, hmod⟩
        · rcases List.mem_cons.mp hw1 with hw2 | hw2
          · subst hw2
            exact ⟨by dsimp only; omega, by dsimp only; omega⟩
          · exact ih (cursor + 8) tail htail (by omega) (by omega) w hw2
      · simp at h

/-- Every parsed window starts at a nonnegative even eighth. -/
theorem parseProgression_windows {prog : String} {ws : List ChordWindow}
    (h : parseProgression prog = .ok ws) :
    ∀ w ∈ ws, 0 ≤ w.startEighth ∧ w.startEighth % 2 = 0 := by
  unfold parseProgression at h
  split at h
  · rw [Except.ok.injEq] at h
    subst h
    intro w hw
    simp at hw
  · dsimp only at h
    exact parseBars_windows _ 0 ws h (by norm_num) (by norm_num)

/-! ## Closure fold lemmas -/

/-- The running maximum of `addClosure` stays within the list. -/
theorem pickFold_mem :
    ∀ (l : List ScheduledNote) (a : ScheduledNote),
      (l.foldl (fun latest note => if note.t > latest.t then note else latest) a) = a ∨
      (l.foldl (fun latest note => if note.t > latest.t then note else latest) a) ∈ l := by
  intro l
  induction l with
  | nil => intro a; left; rfl
  | cons b tl ih =>
      intro a
      rw [List.foldl_cons]
      rcases ih (if b.t > a.t then b else a) with h | h
      · rw [h]
        split
        · right; simp
        · left; rfl
      · right; exact List.mem_cons_of_mem b h

/-- The running maximum of `addClosure` dominates every element. -/
theorem pickFold_ge :
    ∀ (l : List ScheduledNote) (a x : ScheduledNote), (x = a ∨ x ∈ l) →
      x.t ≤ (l.foldl (fun latest note => if note.t > latest.t then note else latest) a).t := by
  intro l
  induction l with
  | nil =>
      intro a x hx
      rcases hx with rfl | hx
      · exact le_refl _
      · simp at hx
  | cons b tl ih =>
      intro a x hx
      rw [List.foldl_cons]
      have hstep : ∀ y : ScheduledNote, (y = a ∨ y = b) →
          y.t ≤ (if b.t > a.t then b else a).t := by
        intro y hy
        rcases hy with rfl | rfl <;> (split <;> omega)
      rcases hx with rfl | hx
      · exact le_trans (hstep x (Or.inl rfl)) (ih _ _ (Or.inl rfl))
      · rcases List.mem_cons.mp hx with rfl | hx
        · exact le_trans (hstep x (Or.inr rfl)) (ih _ _ (Or.inl rfl))
        · exact ih _ _ (Or.inr hx)

/-- Full behaviour of `addClosure`: nothing happens without targets;
otherwise exactly the closure note for the latest target is appended. -/
theorem addClosure_spec (notes : List ScheduledNote) :
    (notes.filter (fun n => n.src = NoteSource.target) = [] ∧ addClosure notes = .ok notes) ∨
    (∃ t0 rest c,
      notes.filter (fun n => n.src = NoteSource.target) = t0 :: rest ∧
      addClosure notes = .ok (notes ++ [c]) ∧
      c.src = NoteSource.closure ∧ c.dur = 1 ∧
      c.t = ((t0 :: rest).foldl
        (fun latest note => if note.t > latest.t then note else latest) t0).t + 1 ∧
      (60 ≤ ((t0 :: rest).foldl
          (fun latest note => if note.t > latest.t then note else latest) t0).midi →
        ((t0 :: rest).foldl
          (fun latest note => if note.t > latest.t then note else latest) t0).midi ≤ 84 →
        |c.midi - ((t0 :: rest).foldl
          (fun latest note => if note.t > latest.t then note else latest) t0).midi| ≤ 11)) := by
  cases hfil : notes.filter (fun n => n.src = NoteSource.target) with
  | nil =>
      left
      refine ⟨rfl, ?_⟩
      unfold addClosure
      rw [hfil]
  | cons t0 rest =>
      right
      set lastT := (t0 :: rest).foldl
        (fun latest note => if note.t > latest.t then note else latest) t0 with hlastT
      set cm : Int := if lastT.midi - 2 < MIN_MIDI then
          (if lastT.midi + 2 ≤ MAX_MIDI then lastT.midi + 2 else MIN_MIDI)
        else lastT.midi - 2 with hcm
      by_cases hint : |cm - lastT.midi| > 11
      · refine ⟨t0, rest, ⟨lastT.t + 1, 1, wrapValue (lastT.midi - 5) MIN_MIDI MAX_MIDI,
          midiToPitch (wrapValue (lastT.midi - 5) MIN_MIDI MAX_MIDI),
          NoteSource.closure, none, none⟩, rfl, ?_, rfl, rfl, rfl, ?_⟩
        · unfold addClosure
          rw [hfil]
          dsimp only
          rw [← hlastT, ← hcm, if_pos hint]
          rw [show wrapMidiToRange (lastT.midi - 5) MIN_MIDI MAX_MIDI =
            .ok (wrapValue (lastT.midi - 5) MIN_MIDI MAX_MIDI) from by
              unfold wrapMidiToRange
              rw [if_neg (by unfold MIN_MIDI MAX_MIDI; omega)]]
        · intro h60 h84
          exfalso
          rw [← hlastT] at h60 h84
          rw [hcm] at hint
          unfold MIN_MIDI MAX_MIDI at hint
          split_ifs at hint <;> (rcases lt_abs.mp hint with hh | hh <;> omega)
      · refine ⟨t0, rest, ⟨lastT.t + 1, 1, cm, midiToPitch cm,
          NoteSource.closure, none, none⟩, rfl, ?_, rfl, rfl, rfl, fun _ _ => by
            dsimp only
            rw [← hlastT]
            exact not_lt.mp hint⟩
        unfold addClosure
        rw [hfil]
        dsimp only
        rw [← hlastT, ← hcm, if_neg hint]

/-! ## Scheduler window invariants -/

/-- Numeric bounds on a fitted placement: the earliest time is
nonnegative, precedes the approach start, which precedes the landing,
and the landing sits on a legal offset. -/
theorem fitted_placement_bounds {window : ChordWindow} {formula : List Int}
    {previousWindow : Option ChordWindow} {pref : Option (List Int)}
    {fitted : List Int} {placement : RhythmPlacement}
    (hw0 : 0 ≤ window.startEighth)
    (hlb : 0 ≤ lowerBoundFor previousWindow)
    (h : fitFormula window formula previousWindow pref = .ok (fitted, placement)) :
    0 ≤ earliestTime placement ∧
    earliestTime placement ≤ placement.approachStart ∧
    placement.approachStart ≤ placement.landing ∧
    ∃ o ∈ getLandingOptions window, placement.landing = window.startEighth + o := by
  obtain ⟨hfe, hq, hdisj⟩ := fitFormula_inv h
  obtain ⟨hland, happ, hiso, htot, hlen⟩ := computeRhythmPlacement_fields hq
  obtain ⟨o, ho, hpick⟩ := pickLanding_spec window pref
  obtain ⟨hodd, ho1, ho7⟩ := getLandingOptions_props window o ho
  have hlanding : placement.landing = window.startEighth + o := by rw [hland, hpick]
  have hlanding_pos : 1 ≤ placement.landing := by omega
  have happle : placement.approachStart ≤ placement.landing := by
    rw [happ]
    omega
  have he_iso : ∀ i, placement.isolated = some i → i = placement.approachStart - 1 := by
    intro i hi
    rw [hi] at hiso
    split at hiso
    · exact (Option.some.injEq _ _ ▸ hiso)
    · simp at hiso
  have he_le : earliestTime placement ≤ placement.approachStart := by
    unfold earliestTime
    cases hi : placement.isolated with
    | none => simp
    | some i =>
        simp only [Option.getD_some]
        rw [he_iso i hi]
        omega
  have he_0 : 0 ≤ earliestTime placement := by
    rcases hdisj with hge | h1
    · omega
    · have hn1 : (fitted.length : Int) = 1 := by exact_mod_cast h1
      have has : placement.approachStart = placement.landing := by
        rw [happ, hn1]
        ring
      unfold earliestTime
      cases hi : placement.isolated with
      | none =>
          simp only [Option.getD_none]
          omega
      | some i =>
          simp only [Option.getD_some]
          have := he_iso i hi
          omega
  exact ⟨he_0, he_le, happle, o, ho, hlanding⟩

/-- Everything `scheduleForWindow` appends: accumulated notes are kept,
new notes have nonnegative times and are never closures, and exactly
the target note of this window is pushed with the parity property. -/
theorem scheduleForWindow_spec {theory : TheoryData} {notes : List ScheduledNote}
    {window : ChordWindow} {profile : ChordProfile} {target : ContourTarget}
    {previousWindow : Option ChordWindow} {policy : Option PolicyConfig}
    {rngS : RngState} {polS : PolicyState}
    {notes' : List ScheduledNote} {rs' : RngState} {ps' : PolicyState}
    (h : scheduleForWindow theory notes window profile target previousWindow policy rngS polS
      = .ok (notes', rs', ps'))
    (hw0 : 0 ≤ window.startEighth)
    (hlb : 0 ≤ lowerBoundFor previousWindow) :
    (∀ n ∈ notes, n ∈ notes') ∧
    (∀ n ∈ notes', n ∈ notes ∨
      (0 ≤ n.t ∧ n.src ≠ NoteSource.closure ∧
        (n.src = NoteSource.target → targetWindowProp window n))) ∧
    (∃ n ∈ notes', n.src = NoteSource.target) := by
  unfold scheduleForWindow at h
  obtain ⟨sel, hsel, h⟩ := except_bind_ok h
  obtain ⟨fit, hfit, h⟩ := except_bind_ok h
  obtain ⟨apm, hapm, h⟩ := except_bind_ok h
  obtain ⟨wtm, hwtm, h⟩ := except_bind_ok h
  rw [Except.ok.injEq, Prod.mk.injEq, Prod.mk.injEq] at h
  obtain ⟨hN, -, -⟩ := h
  obtain ⟨he0, hele, hasl, o, ho, hlanding⟩ := fitted_placement_bounds hw0 hlb hfit
  obtain ⟨hodd, ho1, ho7⟩ := getLandingOptions_props window o ho
  obtain ⟨hwle, hwval⟩ := wrapMidiToRange_ok hwtm
  have hwmem := wrapValue_mem target.midi MIN_MIDI MAX_MIDI hwle
  rw [← hwval] at hwmem
  obtain ⟨-, hq, -⟩ := fitFormula_inv hfit
  obtain ⟨-, -, hiso, -, -⟩ := computeRhythmPlacement_fields hq
  have hMIN : MIN_MIDI = 60 := rfl
  have hMAX : MAX_MIDI = 84 := rfl
  -- the isolated time, if kept, is the earliest time
  have hisoE : ∀ i, fit.2.isolated = some i → i = earliestTime fit.2 := by
    intro i hi
    unfold earliestTime
    rw [hi]
    rfl
  -- the target note pushed at the landing
  have htgt : targetWindowProp window
      { t := fit.2.landing, dur := 1, midi := wtm, pitch := target.pitch,
        src := NoteSource.target, chord := some window.chordSymbol,
        degree := some target.degree } := by
    refine ⟨rfl, by dsimp only; omega, by dsimp only; omega, o, ho, ?_⟩
    dsimp only
    exact hlanding
  -- membership in the approach-note list
  have happroach : ∀ (p : Nat × Int) (n : ScheduledNote),
      approachNoteAt window previousWindow fit.2.approachStart p = some n →
      0 ≤ n.t ∧ n.src = NoteSource.approach := by
    intro p n hfp
    unfold approachNoteAt at hfp
    dsimp only at hfp
    split at hfp
    · simp at hfp
    · rw [Option.some.injEq] at hfp
      subst hfp
      refine ⟨?_, rfl⟩
      dsimp only
      have hk : (0 : Int) ≤ (p.1 : Int) := Int.natCast_nonneg _
      omega
  subst hN
  refine ⟨?_, ?_, ?_⟩
  · intro n hn
    rcases hMi : fit.2.isolated with - | i
    · simp only [hMi]
      simp [hn]
    · simp only [hMi]
      by_cases hdrop : i < 0 ∧ previousWindow = none
      · rw [if_pos hdrop]
        simp [hn]
      · rw [if_neg hdrop]
        simp [hn]
  · intro n hn
    rcases hMi : fit.2.isolated with - | i
    · simp only [hMi] at hn
      simp only [List.mem_append, List.mem_singleton] at hn
      rcases hn with (hn | hn) | hn
      · exact Or.inl hn
      · obtain ⟨p, hp, hfp⟩ := List.mem_filterMap.mp hn
        obtain ⟨ht0, hsrc⟩ := happroach p n hfp
        refine Or.inr ⟨ht0, by rw [hsrc]; simp, fun habs => ?_⟩
        rw [hsrc] at habs
        simp at habs
      · subst hn
        refine Or.inr ⟨?_, by simp, fun _ => htgt⟩
        dsimp only
        omega
    · simp only [hMi] at hn
      have hieq : i = earliestTime fit.2 := hisoE i hMi
      by_cases hdrop : i < 0 ∧ previousWindow = none
      · exfalso
        omega
      · rw [if_neg hdrop] at hn
        simp only [List.mem_append, List.mem_singleton] at hn
        rcases hn with ((hn | hn) | hn) | hn
        · exact Or.inl hn
        · subst hn
          refine Or.inr ⟨by dsimp only; omega, by simp, fun habs => ?_⟩
          simp at habs
        · obtain ⟨p, hp, hfp⟩ := List.mem_filterMap.mp hn
          obtain ⟨ht0, hsrc⟩ := happroach p n hfp
          refine Or.inr ⟨ht0, by rw [hsrc]; simp, fun habs => ?_⟩
          rw [hsrc] at habs
          simp at habs
        · subst hn
          refine Or.inr ⟨?_, by simp, fun _ => htgt⟩
          dsimp only
          omega
  · refine ⟨{ t := fit.2.landing, dur := 1, midi := wtm, pitch := target.pitch,
              src := NoteSource.target, chord := some window.chordSymbol,
              degree := some target.degree }, ?_, rfl⟩
    rcases hMi : fit.2.isolated with - | i
    · simp only [hMi]
      simp
    · simp only [hMi]
      by_cases hdrop : i < 0 ∧ previousWindow = none
      · rw [if_pos hdrop]
        simp
      · rw [if_neg hdrop]
        simp

/-- The window loop never discards accumulated notes. -/
theorem scheduleWindows_mono {theory : TheoryData} {policy : Option PolicyConfig} :
    ∀ (ws : List ChordWindow) (prev : Option ChordWindow) (notes : List ScheduledNote)
      (cs : ContourState) (rs : RngState) (ps : PolicyState)
      (out : List ScheduledNote) (cs' : ContourState) (rs' : RngState) (ps' : PolicyState),
      scheduleWindows theory policy ws prev notes cs rs ps = .ok (out, cs', rs', ps') →
      (∀ w ∈ ws, 0 ≤ w.startEighth) → 0 ≤ lowerBoundFor prev →
      ∀ n ∈ notes, n ∈ out := by
  intro ws
  induction ws with
  | nil =>
      intro prev notes cs rs ps out cs' rs' ps' h _ _ n hn
      unfold scheduleWindows at h
      rw [Except.ok.injEq, Prod.mk.injEq] at h
      rw [← h.1]
      exact hn
  | cons w rest ih =>
      intro prev notes cs rs ps out cs' rs' ps' h hws hlb n hn
      unfold scheduleWindows at h
      obtain ⟨profile, hprof, h⟩ := except_bind_ok h
      obtain ⟨nt, hnt, h⟩ := except_bind_ok h
      obtain ⟨step, hstep, h⟩ := except_bind_ok h
      obtain ⟨hsub, -, -⟩ := scheduleForWindow_spec hstep (hws w (by simp)) hlb
      exact ih (some w) step.1 nt.2 step.2.1 step.2.2 out cs' rs' ps' h
        (fun w' hw' => hws w' (by simp [hw'])) (hws w (by simp)) n (hsub n hn)

/-- Invariant of the window loop: every output note is either inherited
or is a nonnegative-time non-closure note, targets carrying the parity
property of one of the processed windows; and at least one target is
emitted when any window is. -/
theorem scheduleWindows_spec {theory : TheoryData} {policy : Option PolicyConfig} :
    ∀ (ws : List ChordWindow) (prev : Option ChordWindow) (notes : List ScheduledNote)
      (cs : ContourState) (rs : RngState) (ps : PolicyState)
      (out : List ScheduledNote) (cs' : ContourState) (rs' : RngState) (ps' : PolicyState),
      scheduleWindows theory policy ws prev notes cs rs ps = .ok (out, cs', rs', ps') →
      (∀ w ∈ ws, 0 ≤ w.startEighth) → 0 ≤ lowerBoundFor prev →
      (∀ n ∈ out, n ∈ notes ∨
        (0 ≤ n.t ∧ n.src ≠ NoteSource.closure ∧
          (n.src = NoteSource.target → ∃ w ∈ ws, targetWindowProp w n))) ∧
      (ws ≠ [] → ∃ n ∈ out, n.src = NoteSource.target) := by
  intro ws
  induction ws with
  | nil =>
      intro prev notes cs rs ps out cs' rs' ps' h _ _
      unfold scheduleWindows at h
      rw [Except.ok.injEq, Prod.mk.injEq] at h
      refine ⟨fun n hn => Or.inl ?_, fun habs => absurd rfl habs⟩
      rw [← h.1] at hn
      exact hn
  | cons w rest ih =>
      intro prev notes cs rs ps out cs' rs' ps' h hws hlb
      unfold scheduleWindows at h
      obtain ⟨profile, hprof, h⟩ := except_bind_ok h
      obtain ⟨nt, hnt, h⟩ := except_bind_ok h
      obtain ⟨step, hstep, h⟩ := except_bind_ok h
      have hw0 : 0 ≤ w.startEighth := hws w (by simp)
      obtain ⟨hsub, hprop, tn, htn, htnsrc⟩ := scheduleForWindow_spec hstep hw0 hlb
      have hrest : ∀ w' ∈ rest, 0 ≤ w'.startEighth := fun w' hw' => hws w' (by simp [hw'])
      obtain ⟨hrec, -⟩ := ih (some w) step.1 nt.2 step.2.1 step.2.2 out cs' rs' ps' h
        hrest hw0
      constructor
      · intro n hn
        rcases hrec n hn with hn1 | ⟨ht, hc, htg⟩
        · rcases hprop n hn1 with hn2 | ⟨ht, hc, htg⟩
          · exact Or.inl hn2
          · refine Or.inr ⟨ht, hc, fun hsrc => ?_⟩
            exact ⟨w, by simp, htg hsrc⟩
        · refine Or.inr ⟨ht, hc, fun hsrc => ?_⟩
          obtain ⟨w', hw', hp⟩ := htg hsrc
          exact ⟨w', by simp [hw'], hp⟩
      · intro _
        exact ⟨tn, scheduleWindows_mono rest (some w) step.1 nt.2 step.2.1 step.2.2
          out cs' rs' ps' h hrest hw0 tn htn, htnsrc⟩

/-! ## Sorting and driver inversion -/

/-- `sortNotes` is a permutation of its input. -/
theorem sortNotes_perm (notes : List ScheduledNote) : (sortNotes notes).Perm notes :=
  List.perm_insertionSort _ notes

/-- `sortNotes` preserves membership. -/
theorem sortNotes_mem {notes : List ScheduledNote} {n : ScheduledNote} :
    n ∈ sortNotes notes ↔ n ∈ notes :=
  (sortNotes_perm notes).mem_iff

/-- `sortNotes` preserves the count of any predicate. -/
theorem sortNotes_countP (p : ScheduledNote → Bool) (notes : List ScheduledNote) :
    (sortNotes notes).countP p = notes.countP p :=
  (sortNotes_perm notes).countP_eq p

/-- Inversion for the `scheduleProgression` driver: the output is
either empty (empty parse) or the sort of the closure-extended sort of
the window-loop output. -/
theorem scheduleProgression_inv {theory : TheoryData} {prog : String}
    {ctx : SchedulerContext} {out : List ScheduledNote}
    (h : scheduleProgression theory prog ctx = .ok out) :
    ∃ ws, parseProgression prog = .ok ws ∧
      ((ws = [] ∧ out = []) ∨
       (ws ≠ [] ∧ ∃ run mid,
          scheduleWindows theory (some (ctx.policy.getD (createPolicyManager, none)).1)
            ws none [] (ctx.contour.getD (createContourGenerator defaultContourOptions))
            ctx.rng (ctx.policy.getD (createPolicyManager, none)).2 = .ok run ∧
          addClosure (sortNotes run.1) = .ok mid ∧
          out = sortNotes mid)) := by
  unfold scheduleProgression at h
  obtain ⟨ws, hws, h⟩ := except_bind_ok h
  refine ⟨ws, hws, ?_⟩
  split at h
  · left
    rw [Except.ok.injEq] at h
    exact ⟨List.isEmpty_iff.mp (by assumption), h.symm⟩
  · right
    refine ⟨fun hnil => by simp [hnil] at *, ?_⟩
    dsimp only at h
    obtain ⟨run, hrun, h⟩ := except_bind_ok h
    obtain ⟨mid, hmid, h⟩ := except_bind_ok h
    rw [Except.ok.injEq] at h
    exact ⟨run, mid, hrun, hmid, h.symm⟩

/-- Full run invariant of `scheduleProgression`: every output note has
a nonnegative time; every target note carries the landing property of
some even-start parsed window; when a target exists the output holds
exactly one closure note, one eighth after the latest target, at an
even time, within 11 semitones of it; without targets no closure. -/
theorem scheduleProgression_spec {theory : TheoryData} {prog : String}
    {ctx : SchedulerContext} {out : List ScheduledNote}
    (h : scheduleProgression theory prog ctx = .ok out) :
    ∃ ws, parseProgression prog = .ok ws ∧
      (∀ n ∈ out, 0 ≤ n.t ∧
        (n.src = NoteSource.target →
          ∃ w ∈ ws, targetWindowProp w n ∧ w.startEighth % 2 = 0)) ∧
      ((∃ n ∈ out, n.src = NoteSource.target) →
        out.countP (fun n => n.src = NoteSource.closure) = 1 ∧
        ∃ c ∈ out, c.src = NoteSource.closure ∧
          ∃ lt ∈ out, lt.src = NoteSource.target ∧
            (∀ n ∈ out, n.src = NoteSource.target → n.t ≤ lt.t) ∧
            c.t = lt.t + 1 ∧ c.t % 2 = 0 ∧ |c.midi - lt.midi| ≤ 11) ∧
      ((∀ n ∈ out, n.src ≠ NoteSource.target) →
        ∀ n ∈ out, n.src ≠ NoteSource.closure) := by
  obtain ⟨ws, hws, hcase⟩ := scheduleProgression_inv h
  refine ⟨ws, hws, ?_⟩
  rcases hcase with ⟨hnil, hout⟩ | ⟨hne, run, mid, hrun, hmid, hout⟩
  · subst hout
    refine ⟨by simp, ?_, by simp⟩
    rintro ⟨n, hn, -⟩
    simp at hn
  · have hwprops := parseProgression_windows hws
    obtain ⟨hmemprop, hextgt⟩ :=
      scheduleWindows_spec ws none [] _ ctx.rng _ run.1 run.2.1 run.2.2.1 run.2.2.2 hrun
        (fun w hw => (hwprops w hw).1) (by norm_num [lowerBoundFor])
    have hclean : ∀ n ∈ run.1, 0 ≤ n.t ∧ n.src ≠ NoteSource.closure ∧
        (n.src = NoteSource.target → ∃ w ∈ ws, targetWindowProp w n) := by
      intro n hn
      rcases hmemprop n hn with hfalse | hok
      · simp at hfalse
      · exact hok
    obtain ⟨tn, htn, htns⟩ := hextgt hne
    have htn_fil : tn ∈ (sortNotes run.1).filter (fun n => n.src = NoteSource.target) :=
      List.mem_filter.mpr ⟨sortNotes_mem.mpr htn, by simp [htns]⟩
    rcases addClosure_spec (sortNotes run.1) with ⟨hfil, -⟩ |
      ⟨t0, rest, c, hfil, hok, hcsrc, hcdur, hct, hcmid⟩
    · rw [hfil] at htn_fil
      simp at htn_fil
    · set lastT := (t0 :: rest).foldl
        (fun latest note => if note.t > latest.t then note else latest) t0 with hlastT
      have hmid_eq : mid = sortNotes run.1 ++ [c] := by
        have := hok.symm.trans hmid
        rw [Except.ok.injEq] at this
        exact this.symm
      rw [hmid_eq] at hout
      have hmem_out : ∀ n : ScheduledNote, n ∈ out ↔ (n ∈ run.1 ∨ n = c) := by
        intro n
        rw [hout, sortNotes_mem, List.mem_append, sortNotes_mem, List.mem_singleton]
      have hlast_fil : lastT ∈ (sortNotes run.1).filter (fun n => n.src = NoteSource.target) := by
        rw [hfil]
        rcases pickFold_mem (t0 :: rest) t0 with h1 | h1
        · rw [← hlastT] at h1
          rw [h1]
          exact List.mem_cons_self _ _
        · rw [← hlastT] at h1
          exact h1
      obtain ⟨hlast_s1, hlast_pred⟩ := List.mem_filter.mp hlast_fil
      have hlast_src : lastT.src = NoteSource.target := by
        simpa using hlast_pred
      have hlast_run : lastT ∈ run.1 := sortNotes_mem.mp hlast_s1
      obtain ⟨hlt0, -, hltw⟩ := hclean lastT hlast_run
      obtain ⟨w, hw, ⟨hchord, hm60, hm84, o, ho, hteq⟩⟩ := hltw hlast_src
      obtain ⟨hodd, ho1, ho7⟩ := getLandingOptions_props w o ho
      have heven := (hwprops w hw).2
      have hctpar : c.t % 2 = 0 := by
        rw [hct]
        omega
      have hcmid11 : |c.midi - lastT.midi| ≤ 11 := hcmid hm60 hm84
      refine ⟨?_, ?_, ?_⟩
      · intro n hn
        rcases (hmem_out n).mp hn with hn1 | rfl
        · obtain ⟨h0, -, htgt⟩ := hclean n hn1
          refine ⟨h0, fun hs => ?_⟩
          obtain ⟨w1, hw1, hp⟩ := htgt hs
          exact ⟨w1, hw1, hp, (hwprops w1 hw1).2⟩
        · refine ⟨by omega, fun hs => ?_⟩
          rw [hcsrc] at hs
          exact absurd hs (by simp)
      · intro _
        refine ⟨?_, c, (hmem_out c).mpr (Or.inr rfl), hcsrc,
          lastT, (hmem_out lastT).mpr (Or.inl hlast_run), hlast_src, ?_, hct, hctpar, hcmid11⟩
        · rw [hout, sortNotes_countP, List.countP_append, sortNotes_countP]
          have h0 : run.1.countP (fun n => n.src = NoteSource.closure) = 0 := by
            rw [List.countP_eq_zero]
            intro a ha
            simp only [decide_eq_true_eq]
            exact (hclean a ha).2.1
          rw [h0]
          simp [hcsrc]
        · intro n hn hs
          rcases (hmem_out n).mp hn with hn1 | rfl
          · have hn_fil : n ∈ (sortNotes run.1).filter (fun m => m.src = NoteSource.target) :=
              List.mem_filter.mpr ⟨sortNotes_mem.mpr hn1, by simp [hs]⟩
            rw [hfil] at hn_fil
            exact pickFold_ge (t0 :: rest) t0 n (Or.inr hn_fil)
          · rw [hcsrc] at hs
            exact absurd hs (by simp)
      · intro h0
        exact absurd htns (h0 tn ((hmem_out tn).mpr (Or.inl htn)))

/-- `getLandingOptions` in the two-way form the claims use. -/
theorem getLandingOptions_eq (w : ChordWindow) :
    getLandingOptions w =
      (if w.lengthEighths = 4 then ([1, 3] : List Int) else [1, 3, 5, 7]) := by
  by_cases h4 : w.lengthEighths = 4
  · simp [getLandingOptions, h4]
  · by_cases h8 : w.lengthEighths = 8 <;> simp [getLandingOptions, h4, h8]

/-- Congruence for `Except.bind`: continuations that agree on the
value a successful computation produces give equal binds. -/
theorem except_bind_congr {α β : Type} {x : Except String α}
    {f g : α → Except String β}
    (h : ∀ a, x = .ok a → f a = g a) : (x >>= f) = (x >>= g) := by
  cases x with
  | error e => rfl
  | ok a => exact h a rfl

/-- On windows with a nonnegative start (anticipation bound included)
the drop guard of `scheduleForWindow` never fires, so the drop-free
variant is the same function. -/
theorem scheduleForWindowNoDrop_eq {window : ChordWindow}
    {previousWindow : Option ChordWindow}
    (hw0 : 0 ≤ window.startEighth) (hlb : 0 ≤ lowerBoundFor previousWindow)
    (theory : TheoryData) (notes : List ScheduledNote) (profile : ChordProfile)
    (target : ContourTarget) (policy : Option PolicyConfig)
    (rngS : RngState) (polS : PolicyState) :
    scheduleForWindowNoDrop theory notes window profile target previousWindow policy rngS polS
      = scheduleForWindow theory notes window profile target previousWindow policy rngS polS := by
  unfold scheduleForWindowNoDrop scheduleForWindow
  refine except_bind_congr (fun sel hsel => ?_)
  refine except_bind_congr (fun fit hfit => ?_)
  refine except_bind_congr (fun am ham => ?_)
  refine except_bind_congr (fun wtm hwtm => ?_)
  have hiso : (match fit.2.isolated with
      | some i => if i < 0 ∧ previousWindow = none then none else some i
      | none => none) = fit.2.isolated := by
    cases hi : fit.2.isolated with
    | none => rfl
    | some i =>
        obtain ⟨he0, -, -, -⟩ := fitted_placement_bounds hw0 hlb hfit
        rw [earliestTime, hi] at he0
        simp only [Option.getD_some] at he0
        show (if i < 0 ∧ previousWindow = none then none else some i) = some i
        rw [if_neg]
        intro hcon
        omega
  dsimp only
  rw [hiso]

/-- The window loops agree on window lists with nonnegative starts. -/
theorem scheduleWindowsNoDrop_eq {theory : TheoryData} {policy : Option PolicyConfig} :
    ∀ (ws : List ChordWindow), (∀ w ∈ ws, 0 ≤ w.startEighth) →
      ∀ (prev : Option ChordWindow), 0 ≤ lowerBoundFor prev →
      ∀ (notes : List ScheduledNote) (cs : ContourState) (rs : RngState) (ps : PolicyState),
        scheduleWindowsNoDrop theory policy ws prev notes cs rs ps
          = scheduleWindows theory policy ws prev notes cs rs ps := by
  intro ws
  induction ws with
  | nil =>
      intro _ prev _ notes cs rs ps
      rfl
  | cons w rest ih =>
      intro hws prev hlb notes cs rs ps
      have hw0 : 0 ≤ w.startEighth := hws w (by simp)
      have hrec := ih (fun w' hw' => hws w' (by simp [hw'])) (some w) hw0
      unfold scheduleWindowsNoDrop scheduleWindows
      simp only [scheduleForWindowNoDrop_eq hw0 hlb, hrec]

/-- The drop-free driver is extensionally the original driver: parsed
windows always start at nonnegative times. -/
theorem scheduleProgressionNoDrop_eq (theory : TheoryData) (prog : String)
    (ctx : SchedulerContext) :
    scheduleProgressionNoDrop theory prog ctx = scheduleProgression theory prog ctx := by
  unfold scheduleProgressionNoDrop scheduleProgression
  refine except_bind_congr (fun ws hp => ?_)
  have hall : ∀ w ∈ ws, 0 ≤ w.startEighth :=
    fun w hw => (parseProgression_windows hp w hw).1
  simp only [scheduleWindowsNoDrop_eq ws hall none (by norm_num [lowerBoundFor])]

/-- Claim C1: determinism of the engine — for every theory, progression
string, integer seed and slider value, two invocations of
`scheduleProgression` on contexts built by `makeRng` from that seed and
`createContourGenerator` from that slider return equal note lists: the
same length, and equal `t`, `dur`, `midi`, `pitch`, `src`, `chord` and
`degree` at every position. -/
theorem claim_C1_determinism (theory : TheoryData) (prog : String) (seed : Int)
    (slider : Option Rat) {out1 out2 : List ScheduledNote}
    (h1 : scheduleProgression theory prog (mkRunContext seed slider) = .ok out1)
    (h2 : scheduleProgression theory prog (mkRunContext seed slider) = .ok out2) :
    out1.length = out2.length ∧
    ∀ i : Nat, ∀ n1 n2 : ScheduledNote, out1[i]? = some n1 → out2[i]? = some n2 →
      n1.t = n2.t ∧ n1.dur = n2.dur ∧ n1.midi = n2.midi ∧ n1.pitch = n2.pitch ∧
      n1.src = n2.src ∧ n1.chord = n2.chord ∧ n1.degree = n2.degree := by
  have heq : out1 = out2 := by
    have h := h1.symm.trans h2
    rw [Except.ok.injEq] at h
    exact h
  subst heq
  refine ⟨rfl, ?_⟩
  intro i n1 n2 hn1 hn2
  rw [hn1, Option.some.injEq] at hn2
  subst hn2
  exact ⟨rfl, rfl, rfl, rfl, rfl, rfl, rfl⟩

/-- Witness for C1 at the demo run: seed 42, slider 0, one-bar C. -/
theorem claim_C1_witness :
    scheduleProgression demoTheory "| C |" (mkRunContext 42 (some 0)) = .ok demoNotes ∧
    (demoNotes.length = demoNotes.length ∧
     ∀ i : Nat, ∀ n1 n2 : ScheduledNote,
       demoNotes[i]? = some n1 → demoNotes[i]? = some n2 →
       n1.t = n2.t ∧ n1.dur = n2.dur ∧ n1.midi = n2.midi ∧ n1.pitch = n2.pitch ∧
       n1.src = n2.src ∧ n1.chord = n2.chord ∧ n1.degree = n2.degree) :=
  ⟨by with_unfolding_all rfl,
   @claim_C1_determinism demoTheory "| C |" 42 (some 0) demoNotes demoNotes
     (by with_unfolding_all rfl) (by with_unfolding_all rfl)⟩

/-- Claim C2: every target note in the output of `scheduleProgression`
is owned by a parsed window whose chord labels it, and its offset from
that window's start is odd and belongs to the legal landing set —
`{1, 3}` for 4-eighth windows, `{1, 3, 5, 7}` otherwise. -/
theorem claim_C2_target_landing_parity {theory : TheoryData} {prog : String}
    {ctx : SchedulerContext} {out : List ScheduledNote}
    (h : scheduleProgression theory prog ctx = .ok out) :
    ∃ ws, parseProgression prog = .ok ws ∧
      ∀ n ∈ out, n.src = NoteSource.target →
        ∃ w ∈ ws, n.chord = some w.chordSymbol ∧
          (n.t - w.startEighth) % 2 = 1 ∧
          (n.t - w.startEighth) ∈
            (if w.lengthEighths = 4 then ([1, 3] : List Int) else [1, 3, 5, 7]) := by
  obtain ⟨ws, hws, hall, -, -⟩ := scheduleProgression_spec h
  refine ⟨ws, hws, ?_⟩
  intro n hn hs
  obtain ⟨-, htgt⟩ := hall n hn
  obtain ⟨w, hw, ⟨hchord, -, -, o, ho, hteq⟩, -⟩ := htgt hs
  obtain ⟨hodd, -, -⟩ := getLandingOptions_props w o ho
  have hsub : n.t - w.startEighth = o := by omega
  refine ⟨w, hw, hchord, by omega, ?_⟩
  rw [hsub, ← getLandingOptions_eq w]
  exact ho

/-- Witness for C2 at the demo run: the target note lands on offset 1
of the single 8-eighth window. -/
theorem claim_C2_witness :
    scheduleProgression demoTheory "| C |" demoContext = .ok demoNotes ∧
    ∃ ws, parseProgression "| C |" = .ok ws ∧
      ∀ n ∈ demoNotes, n.src = NoteSource.target →
        ∃ w ∈ ws, n.chord = some w.chordSymbol ∧
          (n.t - w.startEighth) % 2 = 1 ∧
          (n.t - w.startEighth) ∈
            (if w.lengthEighths = 4 then ([1, 3] : List Int) else [1, 3, 5, 7]) :=
  ⟨by with_unfolding_all rfl,
   @claim_C2_target_landing_parity demoTheory "| C |" demoContext demoNotes
     (by with_unfolding_all rfl)⟩

/-- Claim C3: when the output of `scheduleProgression` contains a
target note it contains exactly one closure note, placed one eighth
after the latest target, at an even time, within 11 semitones of that
target's MIDI; when no target exists, no closure note is emitted. -/
theorem claim_C3_closure_law {theory : TheoryData} {prog : String}
    {ctx : SchedulerContext} {out : List ScheduledNote}
    (h : scheduleProgression theory prog ctx = .ok out) :
    ((∃ n ∈ out, n.src = NoteSource.target) →
      out.countP (fun n => n.src = NoteSource.closure) = 1 ∧
      ∃ c ∈ out, c.src = NoteSource.closure ∧
        ∃ lt ∈ out, lt.src = NoteSource.target ∧
          (∀ n ∈ out, n.src = NoteSource.target → n.t ≤ lt.t) ∧
          c.t = lt.t + 1 ∧ c.t % 2 = 0 ∧ |c.midi - lt.midi| ≤ 11) ∧
    ((∀ n ∈ out, n.src ≠ NoteSource.target) →
      ∀ n ∈ out, n.src ≠ NoteSource.closure) := by
  obtain ⟨ws, hws, -, hclo, hnone⟩ := scheduleProgression_spec h
  exact ⟨hclo, hnone⟩

/-- Witness for C3 at the demo run: its target exists and forces the
single closure note at time 2. -/
theorem claim_C3_witness :
    scheduleProgression demoTheory "| C |" demoContext = .ok demoNotes ∧
    (∃ n ∈ demoNotes, n.src = NoteSource.target) ∧
    demoNotes.countP (fun n => n.src = NoteSource.closure) = 1 :=
  ⟨by with_unfolding_all rfl,
   by decide,
   ((@claim_C3_closure_law demoTheory "| C |" demoContext demoNotes
     (by with_unfolding_all rfl)).1 (by decide)).1⟩

/-- Claim C10: every note returned by `scheduleProgression` has a
nonnegative time, and the scheduler variant whose negative-isolated
drop guard is removed is the very same function on the run, so that
drop branch is never exercised. -/
theorem claim_C10_nonnegative_times {theory : TheoryData} {prog : String}
    {ctx : SchedulerContext} {out : List ScheduledNote}
    (h : scheduleProgression theory prog ctx = .ok out) :
    (∀ n ∈ out, 0 ≤ n.t) ∧
    scheduleProgressionNoDrop theory prog ctx = .ok out := by
  obtain ⟨ws, hws, hall, -, -⟩ := scheduleProgression_spec h
  exact ⟨fun n hn => (hall n hn).1,
    (scheduleProgressionNoDrop_eq theory prog ctx).trans h⟩

/-- Witness for C10 at the demo run. -/
theorem claim_C10_witness :
    scheduleProgression demoTheory "| C |" demoContext = .ok demoNotes ∧
    (∀ n ∈ demoNotes, 0 ≤ n.t) ∧
    scheduleProgressionNoDrop demoTheory "| C |" demoContext = .ok demoNotes :=
  ⟨by with_unfolding_all rfl,
   (@claim_C10_nonnegative_times demoTheory "| C |" demoContext demoNotes
     (by with_unfolding_all rfl)).1,
   (@claim_C10_nonnegative_times demoTheory "| C |" demoContext demoNotes
     (by with_unfolding_all rfl)).2⟩

end Bebop
